import Mathlib

/-! PyDevice: the Python wrapper (`src/pywrapper.cpp`) and the utilities (`src/util.cpp`)

A shallow embedding of `PyWrapper::convert`, `PyWrapper::eval`, `PyWrapper::compile`,
`PyWrapper::exec`, `PyWrapper::destroy`, `PyWrapper::registerIoIntr`, `pydev_iointr` and the
guard `PyGIL`, and of `Util::getMacros`, `Util::replaceMacro`, `Util::replace` and
`Util::escape`.

Conventions of the embedding

* The Python 3 branches of the source are embedded (`PY_MAJOR_VERSION >= 3`).
* `long` and `long long` are both 64 bits wide (LP64).
* A `std::string` is the list of its bytes, a Python text object the list of its code points.
  A `const char*` read of a buffer stops at the first zero byte.
* CPython objects are values; reference counts are not tracked and allocation never fails.
* A CPython call that can raise returns its value together with the flag `PyErr_Occurred()`
  would report right after the call; the error indicator is clear when `convert` is entered.
* `assert` is enabled: a failed assertion ends the call with `Error.AssertionFailed`.
* Host callbacks are known by identity. The state records each run of a callback together with
  the registry as the callback found it (`Engine.calls`); callbacks do not enter the engine.
* Compiled code is an arbitrary function on the process-wide state (`Code`).
-/

set_option linter.unusedVariables false

namespace PyDevice

/-! ## Strings -/

/-- Contents of a `std::string`: its bytes in order. -/
abbrev Bytes := List Nat

/-- The bytes a reader of a `const char*` sees: everything before the first zero byte.
This is `s.c_str()` handed to a C API and `std::string(const char*)`. -/
def c_str (s : Bytes) : Bytes :=
  s.takeWhile (fun b => b != 0)

/-- Byte values of a literal, used to write concrete names and texts. -/
def ascii (s : String) : Bytes :=
  s.toList.map Char.toNat

/-- An IEEE-754 double, carried as its bit pattern. The wrapper never computes with doubles. -/
structure Dbl where
  bits : Nat
  deriving DecidableEq, Repr

/-- The constant `-1.0`. -/
def Dbl.minusOne : Dbl := ⟨0xBFF0000000000000⟩

/-! ## Variant -/

/-- Modelled from the spec: `Variant::Type` is declared in `variant.h`, which is not among the
sources; the tags are those of the Native Value of the data model. -/
inductive VariantType
  | NONE | BOOL | LONG | UNSIGNED | DOUBLE | STRING
  | VECTOR_LONG | VECTOR_UNSIGNED | VECTOR_DOUBLE | VECTOR_STRING
  deriving DecidableEq, Repr

/-- Modelled from the spec: `Variant` is declared in `variant.h`, which is not among the
sources. A tagged value with exactly one active representation; `LONG` holds a `long long`,
`UNSIGNED` an `unsigned long long`, vectors are homogeneous. -/
inductive Variant
  | NONE
  | BOOL (b : Bool)
  | LONG (n : Int)
  | UNSIGNED (n : Nat)
  | DOUBLE (d : Dbl)
  | STRING (s : Bytes)
  | VECTOR_LONG (xs : List Int)
  | VECTOR_UNSIGNED (xs : List Nat)
  | VECTOR_DOUBLE (xs : List Dbl)
  | VECTOR_STRING (xs : List Bytes)
  deriving DecidableEq, Repr

/-- The member `type` of a `Variant`. -/
def Variant.type : Variant → VariantType
  | .NONE => .NONE
  | .BOOL _ => .BOOL
  | .LONG _ => .LONG
  | .UNSIGNED _ => .UNSIGNED
  | .DOUBLE _ => .DOUBLE
  | .STRING _ => .STRING
  | .VECTOR_LONG _ => .VECTOR_LONG
  | .VECTOR_UNSIGNED _ => .VECTOR_UNSIGNED
  | .VECTOR_DOUBLE _ => .VECTOR_DOUBLE
  | .VECTOR_STRING _ => .VECTOR_STRING

/-- Range of `long long`. -/
def fitsLongLong (n : Int) : Bool :=
  decide (-(2 : Int) ^ 63 ≤ n) && decide (n ≤ (2 : Int) ^ 63 - 1)

/-- Range of `unsigned long long`. -/
def fitsUnsignedLongLong (n : Nat) : Bool :=
  decide (n < 2 ^ 64)

/-- The numbers held by a `Variant` are representable in their C types. -/
def Variant.representable : Variant → Bool
  | .LONG n => fitsLongLong n
  | .UNSIGNED n => fitsUnsignedLongLong n
  | .VECTOR_LONG xs => xs.all fitsLongLong
  | .VECTOR_UNSIGNED xs => xs.all fitsUnsignedLongLong
  | _ => true

/-! ## Engine objects -/

/-- A CPython object, as far as the wrapper distinguishes objects: text, bytes, `bool`, `int`,
`float`, `list`, `None`, and objects of any other type. -/
inductive PyObj
  | none
  | unicode (cps : List Nat)
  | bytes (buf : List Nat)
  | bool (b : Bool)
  | long (n : Int)
  | float (d : Dbl)
  | list (items : List PyObj)
  | other (typeId : Nat)
  deriving Repr

mutual
/-- Equality of objects is decidable (by value). -/
def PyObj.decEq : (a b : PyObj) → Decidable (a = b)
  | .none, .none => isTrue rfl
  | .unicode a, .unicode b =>
    if h : a = b then isTrue (by rw [h]) else isFalse (by intro e; cases e; exact h rfl)
  | .bytes a, .bytes b =>
    if h : a = b then isTrue (by rw [h]) else isFalse (by intro e; cases e; exact h rfl)
  | .bool a, .bool b =>
    if h : a = b then isTrue (by rw [h]) else isFalse (by intro e; cases e; exact h rfl)
  | .long a, .long b =>
    if h : a = b then isTrue (by rw [h]) else isFalse (by intro e; cases e; exact h rfl)
  | .float a, .float b =>
    if h : a = b then isTrue (by rw [h]) else isFalse (by intro e; cases e; exact h rfl)
  | .list a, .list b =>
    match PyObj.decEqList a b with
    | isTrue h => isTrue (by rw [h])
    | isFalse h => isFalse (by intro e; cases e; exact h rfl)
  | .other a, .other b =>
    if h : a = b then isTrue (by rw [h]) else isFalse (by intro e; cases e; exact h rfl)
  | .none, .unicode _ | .none, .bytes _ | .none, .bool _ | .none, .long _ | .none, .float _
  | .none, .list _ | .none, .other _ => isFalse (by intro e; cases e)
  | .unicode _, .none | .unicode _, .bytes _ | .unicode _, .bool _ | .unicode _, .long _
  | .unicode _, .float _ | .unicode _, .list _ | .unicode _, .other _ =>
    isFalse (by intro e; cases e)
  | .bytes _, .none | .bytes _, .unicode _ | .bytes _, .bool _ | .bytes _, .long _
  | .bytes _, .float _ | .bytes _, .list _ | .bytes _, .other _ => isFalse (by intro e; cases e)
  | .bool _, .none | .bool _, .unicode _ | .bool _, .bytes _ | .bool _, .long _
  | .bool _, .float _ | .bool _, .list _ | .bool _, .other _ => isFalse (by intro e; cases e)
  | .long _, .none | .long _, .unicode _ | .long _, .bytes _ | .long _, .bool _
  | .long _, .float _ | .long _, .list _ | .long _, .other _ => isFalse (by intro e; cases e)
  | .float _, .none | .float _, .unicode _ | .float _, .bytes _ | .float _, .bool _
  | .float _, .long _ | .float _, .list _ | .float _, .other _ => isFalse (by intro e; cases e)
  | .list _, .none | .list _, .unicode _ | .list _, .bytes _ | .list _, .bool _
  | .list _, .long _ | .list _, .float _ | .list _, .other _ => isFalse (by intro e; cases e)
  | .other _, .none | .other _, .unicode _ | .other _, .bytes _ | .other _, .bool _
  | .other _, .long _ | .other _, .float _ | .other _, .list _ => isFalse (by intro e; cases e)
/-- Equality of lists of objects is decidable. -/
def PyObj.decEqList : (as bs : List PyObj) → Decidable (as = bs)
  | [], [] => isTrue rfl
  | a :: as, b :: bs =>
    match PyObj.decEq a b with
    | isTrue h1 =>
      match PyObj.decEqList as bs with
      | isTrue h2 => isTrue (by rw [h1, h2])
      | isFalse h2 => isFalse (by intro e; cases e; exact h2 rfl)
    | isFalse h1 => isFalse (by intro e; cases e; exact h1 rfl)
  | [], _ :: _ => isFalse (by intro e; cases e)
  | _ :: _, [] => isFalse (by intro e; cases e)
end

instance : DecidableEq PyObj := PyObj.decEq

def PyUnicode_Check : PyObj → Bool
  | .unicode _ => true
  | _ => false

def PyBytes_Check : PyObj → Bool
  | .bytes _ => true
  | _ => false

def PyBool_Check : PyObj → Bool
  | .bool _ => true
  | _ => false

/-- The type check of `int`; `bool` is a subtype of `int`, so it accepts booleans too. -/
def PyLong_Check : PyObj → Bool
  | .long _ => true
  | .bool _ => true
  | _ => false

def PyFloat_Check : PyObj → Bool
  | .float _ => true
  | _ => false

def PyList_Check : PyObj → Bool
  | .list _ => true
  | _ => false

/-- Truth value of an object. -/
def PyObject_IsTrue : PyObj → Bool
  | .none => false
  | .unicode cps => !cps.isEmpty
  | .bytes buf => !buf.isEmpty
  | .bool b => b
  | .long n => n != 0
  | .float d => d.bits % 2 ^ 63 != 0
  | .list items => !items.isEmpty
  | .other _ => true

/-- Encoding of a text object as ASCII: a bytes object with the same values when every code
point is below 128, otherwise `NULL` (here `none`) with an exception set. -/
def PyUnicode_AsASCIIString : PyObj → Option PyObj
  | .unicode cps => if cps.all (fun c => decide (c < 128)) then some (.bytes cps) else none
  | _ => none

/-- Pointer to the buffer of a bytes object; `NULL` with an exception for any other object. -/
def PyBytes_AsString : PyObj → Option Bytes
  | .bytes buf => some buf
  | _ => none

/-- The integer value of an `int` as `long long`, with the flag `PyErr_Occurred()` reports
afterwards: a value outside the range gives `-1` with `OverflowError` set. -/
def PyLong_AsLongLong : PyObj → Int × Bool
  | .long n => if fitsLongLong n then (n, false) else (-1, true)
  | .bool b => (if b then 1 else 0, false)
  | _ => (-1, true)

/-- As `PyLong_AsLongLong`, for `long`. -/
def PyLong_AsLong : PyObj → Int × Bool
  | .long n => if fitsLongLong n then (n, false) else (-1, true)
  | .bool b => (if b then 1 else 0, false)
  | _ => (-1, true)

/-- The value of a `float`, with the flag `PyErr_Occurred()` reports afterwards. -/
def PyFloat_AsDouble : PyObj → Dbl × Bool
  | .float d => (d, false)
  | _ => (Dbl.minusOne, true)

/-! ## `PyWrapper::convert` -/

/-- The locals of the list branch of `convert`: `vd`, `vl`, `vs` and `t`. -/
structure ListLocals where
  vd : List Dbl
  vl : List Int
  vs : List Bytes
  t : VariantType
  deriving DecidableEq, Repr

/-- The body of the loop over the list for one element `el`; `none` is `return false`. -/
def convert_element (s : ListLocals) (el : PyObj) : Option ListLocals := do
  let s ←
    if PyLong_Check el && (s.t == .NONE || s.t == .VECTOR_LONG) then
      let val := PyLong_AsLong el
      if val.1 == -1 && val.2 then none
      else some { s with vl := s.vl ++ [val.1], t := .VECTOR_LONG }
    else some s
  let s :=
    if PyBool_Check el && (s.t == .NONE || s.t == .VECTOR_LONG) then
      let val : Int := if PyObject_IsTrue el then 1 else 0
      { s with vl := s.vl ++ [val], t := .VECTOR_LONG }
    else s
  let s ←
    if PyFloat_Check el && (s.t == .NONE || s.t == .VECTOR_DOUBLE) then
      let val := PyFloat_AsDouble el
      if val.1 == Dbl.minusOne && val.2 then none
      else some { s with vd := s.vd ++ [val.1], t := .VECTOR_DOUBLE }
    else some s
  if PyUnicode_Check el && (s.t == .NONE || s.t == .VECTOR_STRING) then
    match PyUnicode_AsASCIIString el with
    | none => none
    | some tmp =>
      match PyBytes_AsString tmp with
      | none => none
      | some cval => some { s with vs := s.vs ++ [c_str cval], t := .VECTOR_STRING }
  else some s

/-- The loop `for (i = 0; i < PyList_Size(in); i++)` of `convert`. -/
def convert_loop : List PyObj → ListLocals → Option ListLocals
  | [], s => some s
  | el :: rest, s =>
    match convert_element s el with
    | none => none
    | some s1 => convert_loop rest s1

/-- The `Variant` assigned to `out` after the loop. -/
def convert_result (s : ListLocals) : Variant :=
  if s.t == .VECTOR_LONG then .VECTOR_LONG s.vl
  else if s.t == .VECTOR_STRING then .VECTOR_STRING s.vs
  else .VECTOR_DOUBLE s.vd

/-- The function `PyWrapper::convert(in, out)`: the returned flag and the value of `out` afterwards. -/
def convert (inp : PyObj) (out : Variant) : Bool × Variant :=
  if PyUnicode_Check inp then
    match PyUnicode_AsASCIIString inp with
    | none => (false, out)
    | some tmp =>
      match PyBytes_AsString tmp with
      | none => (false, out)
      | some o => (true, .STRING (c_str o))
  else if PyBool_Check inp then
    (true, .BOOL (PyObject_IsTrue inp))
  else if PyLong_Check inp then
    let o := PyLong_AsLongLong inp
    if o.1 == -1 && o.2 then (false, out) else (true, .LONG o.1)
  else if PyFloat_Check inp then
    let o := PyFloat_AsDouble inp
    if o.1 == Dbl.minusOne && o.2 then (false, out) else (true, .DOUBLE o.1)
  else
    match inp with
    | .list items =>
      match convert_loop items ⟨[], [], [], .NONE⟩ with
      | none => (false, out)
      | some s => (true, convert_result s)
    | _ => (false, out)

/-! ## Building engine objects (the argument loop of `PyWrapper::eval`) -/

/-- The state of the UTF-8 decoder between two bytes: how many continuation bytes are still
expected, the bits collected so far, and the bounds on the next continuation byte. -/
structure Utf8State where
  need : Nat
  cp : Nat
  lo : Nat
  hi : Nat
  deriving DecidableEq, Repr

/-- Strict UTF-8 decoding from a decoder state; `none` when the bytes are not well-formed
(stray continuation byte, overlong form, surrogate, value above U+10FFFF, truncated
sequence). -/
def utf8_decode_from : Utf8State → List Nat → Option (List Nat)
  | st, [] => if st.need = 0 then some [] else none
  | st, b :: rest =>
    if st.need = 0 then
      if b < 0x80 then (utf8_decode_from st rest).map (fun cps => b :: cps)
      else if 0xC2 ≤ b ∧ b ≤ 0xDF then utf8_decode_from ⟨1, b % 32, 0x80, 0xBF⟩ rest
      else if 0xE0 ≤ b ∧ b ≤ 0xEF then
        utf8_decode_from
          ⟨2, b % 16, if b = 0xE0 then 0xA0 else 0x80, if b = 0xED then 0x9F else 0xBF⟩ rest
      else if 0xF0 ≤ b ∧ b ≤ 0xF4 then
        utf8_decode_from
          ⟨3, b % 8, if b = 0xF0 then 0x90 else 0x80, if b = 0xF4 then 0x8F else 0xBF⟩ rest
      else none
    else if st.lo ≤ b ∧ b ≤ st.hi then
      if st.need = 1 then
        (utf8_decode_from ⟨0, 0, 0x80, 0xBF⟩ rest).map (fun cps => (st.cp * 64 + b % 64) :: cps)
      else utf8_decode_from ⟨st.need - 1, st.cp * 64 + b % 64, 0x80, 0xBF⟩ rest
    else none

/-- Strict UTF-8 decoding of a byte sequence to code points. -/
def utf8_decode (bs : List Nat) : Option (List Nat) :=
  utf8_decode_from ⟨0, 0, 0x80, 0xBF⟩ bs

/-- The singleton `Py_True`. -/
def Py_True : PyObj := .bool true

/-- The singleton `Py_False`. -/
def Py_False : PyObj := .bool false

/-- The `int` holding a `long long`. -/
def PyLong_FromLongLong (v : Int) : PyObj := .long v

/-- The `int` holding an `unsigned long long`. -/
def PyLong_FromUnsignedLongLong (v : Nat) : PyObj := .long (Int.ofNat v)

/-- The `float` holding a `double`. -/
def PyFloat_FromDouble (d : Dbl) : PyObj := .float d

/-- The text object decoded as UTF-8 from a `const char*`; `NULL` (here `none`) with an
exception set when the bytes are not well-formed UTF-8. The argument is the `std::string`
whose `c_str()` is passed. -/
def PyUnicode_FromString (s : Bytes) : Option PyObj :=
  (utf8_decode (c_str s)).map PyObj.unicode

/-- The exceptions thrown by the wrapper, and the outcome of a failed `assert`. -/
inductive Error
  | SyntaxError
  | ArgumentError
  | EvalError
  | invalid_argument
  | AssertionFailed
  deriving DecidableEq, Repr

/-- The loops `for (auto& val: vals)` of `eval` that fill the list `item`: each element is
built by `mk`, `assert(element)` is checked, and the element is appended. -/
def eval_append {α : Type} (mk : α → Option PyObj) : List α → List PyObj → Except Error PyObj
  | [], item => .ok (.list item)
  | val :: vals, item =>
    match mk val with
    | none => .error .AssertionFailed
    | some element => eval_append mk vals (item ++ [element])

/-- The object `item` that `eval` builds for one argument value; `.ok none` is `nullptr`. -/
def eval_item (v : Variant) : Except Error (Option PyObj) :=
  match v with
  | .BOOL b => .ok (some (if b == true then Py_True else Py_False))
  | .LONG n => .ok (some (PyLong_FromLongLong n))
  | .UNSIGNED n => .ok (some (PyLong_FromUnsignedLongLong n))
  | .DOUBLE d => .ok (some (PyFloat_FromDouble d))
  | .STRING s => .ok (PyUnicode_FromString s)
  | .VECTOR_LONG vals => (eval_append (fun val => some (PyLong_FromLongLong val)) vals []).map some
  | .VECTOR_UNSIGNED vals =>
    (eval_append (fun val => some (PyLong_FromUnsignedLongLong val)) vals []).map some
  | .VECTOR_DOUBLE vals => (eval_append (fun val => some (PyFloat_FromDouble val)) vals []).map some
  | .VECTOR_STRING vals => (eval_append PyUnicode_FromString vals []).map some
  | .NONE => .ok none

/-! ## Namespaces -/

/-- A `dict` with text keys: its items in insertion order. -/
abbrev Dict := List (List Nat × PyObj)

/-- Lookup of a key. -/
def PyDict_GetItem (d : Dict) (key : List Nat) : Option PyObj :=
  match d with
  | [] => none
  | (k, v) :: rest => if k = key then some v else PyDict_GetItem rest key

/-- Insert or replace: an existing key keeps its position, a new key goes last. -/
def PyDict_SetItem (d : Dict) (key : List Nat) (item : PyObj) : Dict :=
  match d with
  | [] => [(key, item)]
  | (k, v) :: rest =>
    if k = key then (k, item) :: rest else (k, v) :: PyDict_SetItem rest key item

/-- The call `PyDict_SetItemString(d, key, item)`: the dict afterwards and whether the call returned 0.
It fails when no text object can be built for the key. -/
def PyDict_SetItemString (d : Dict) (key : Bytes) (item : PyObj) : Dict × Bool :=
  match PyUnicode_FromString key with
  | some (.unicode k) => (PyDict_SetItem d k item, true)
  | _ => (d, false)

/-- The call `PyDict_DelItemString(d, key)`: the dict afterwards and whether the call returned 0.
It fails when the key is not in the dict (`KeyError`) or cannot be built. -/
def PyDict_DelItemString (d : Dict) (key : Bytes) : Dict × Bool :=
  match PyUnicode_FromString key with
  | some (.unicode k) =>
    if (PyDict_GetItem d k).isSome then (d.filter (fun kv => decide (kv.1 ≠ k)), true)
    else (d, false)
  | _ => (d, false)

/-- The call `PyDict_GetItemString(d, key)`: the value bound to the name, if any. -/
def PyDict_GetItemString (d : Dict) (key : Bytes) : Option PyObj :=
  match PyUnicode_FromString key with
  | some (.unicode k) => PyDict_GetItem d k
  | _ => none

/-! ## The process-wide state -/

/-- A host notifier (`PyWrapper::Callback`, a `std::function<void()>`), known by identity. -/
structure Callback where
  id : Nat
  deriving DecidableEq, Repr

/-- The static map `params`: name, callback (`first`) and cached object (`second`, `none` for
`nullptr`). The order of the entries is not observable. -/
abbrev Params := List (Bytes × Callback × Option PyObj)

/-- The lookup `params.find(name)`; `none` is `params.end()`. -/
def Params.find (p : Params) (name : Bytes) : Option (Callback × Option PyObj) :=
  match p with
  | [] => none
  | (k, e) :: rest => if k = name then some e else Params.find rest name

/-- The assignment `it->second.second = value` for the entry found under `name`. -/
def Params.setSecond (p : Params) (name : Bytes) (value : Option PyObj) : Params :=
  match p with
  | [] => []
  | (k, e) :: rest =>
    if k = name then (k, (e.1, value)) :: rest else (k, e) :: Params.setSecond rest name value

/-- The assignment `params[name].first = cb`, which creates the entry when it is missing. -/
def Params.setFirst (p : Params) (name : Bytes) (cb : Callback) : Params :=
  match p with
  | [] => [(name, (cb, none))]
  | (k, e) :: rest =>
    if k = name then (k, (cb, e.2)) :: rest else (k, e) :: Params.setFirst rest name cb

/-- One run of a host callback: which callback ran and what `params` held when it ran. -/
structure Call where
  cb : Callback
  params : Params
  deriving DecidableEq, Repr

/-- The statics `globDict`, `locDict` and `params`, and the callbacks run so far. Host
callbacks only notify the host: they do not enter the engine again. -/
structure Engine where
  globDict : Dict
  locDict : Dict
  params : Params
  calls : List Call
  deriving DecidableEq, Repr

/-- A compiled code object: what `PyEval_EvalCode(code, globDict, locDict)` does to the
process-wide state, and the object it returns (`none` is `NULL`, an exception was raised). -/
abbrev Code := Engine → Option PyObj × Engine

/-- The class `PyWrapper::ByteCode`: the handle `code` (`none` is `nullptr`) and the flag `do_clear`. -/
structure ByteCode where
  code : Option Code
  do_clear : Bool

/-- The method `ByteCode::clear_pyobjects()`. -/
def ByteCode.clear_pyobjects (b : ByteCode) : Bool :=
  b.do_clear

/-- The condition `assert(code == nullptr)` of `ByteCode::~ByteCode()`. -/
def ByteCode.destructor_assert (b : ByteCode) : Bool :=
  b.code.isNone

/-! ## `pydev_iointr` and `PyWrapper::registerIoIntr` -/

/-- The call `PyArg_UnpackTuple(args, "pydev.iointr", 1, 2, &param, &value)`: the two outputs when the
tuple has one or two members (`value` stays `nullptr`, here `none`, when it has one),
`none` when the call fails. -/
def PyArg_UnpackTuple (args : List PyObj) : Option (PyObj × Option PyObj) :=
  match args with
  | [param] => some (param, none)
  | [param, value] => some (param, some value)
  | _ => none

/-- What `pydev_iointr` hands back: the returned object, whether an exception is set when it
returns, and the process-wide state afterwards. -/
structure IoIntrResult where
  ret : PyObj
  err : Bool
  engine : Engine
  deriving DecidableEq, Repr

/-- Lines 117 to 136 of `pydev_iointr`: the lookup of `name` and the two uses, writing
(`value` present) and reading (`value` absent). -/
def pydev_iointr_name (name : Bytes) (value : Option PyObj) (e : Engine) : IoIntrResult :=
  let it := e.params.find name
  match value with
  | some value =>
    match it with
    | some entry =>
      let stored := { e with params := e.params.setSecond name (some value) }
      ⟨Py_True, false, { stored with calls := stored.calls ++ [⟨entry.1, stored.params⟩] }⟩
    | none => ⟨Py_True, false, e⟩
  | none =>
    match it with
    | some (_, some cached) => ⟨cached, false, e⟩
    | _ => ⟨.none, false, e⟩

/-- Lines 85 to 115 of `pydev_iointr`: the `std::string name` computed from the first
argument; `none` when the function returns early (`None` with `TypeError` set) because the
argument is not a text object or has no ASCII encoding. -/
def pydev_iointr_param (param : PyObj) : Option Bytes :=
  if !PyUnicode_Check param then none
  else
    match PyUnicode_AsASCIIString param with
    | none => none
    | some tmp =>
      if !PyBytes_Check tmp then none
      else (PyBytes_AsString tmp).map c_str

/-- The function `pydev_iointr(self, args)`, the function scripts call as `pydev.iointr`. -/
def pydev_iointr (args : List PyObj) (e : Engine) : IoIntrResult :=
  match PyArg_UnpackTuple args with
  | none => ⟨Py_False, false, e⟩
  | some (param, value) =>
    match pydev_iointr_param param with
    | none => ⟨.none, true, e⟩
    | some name => pydev_iointr_name name value e

/-- The function `PyWrapper::registerIoIntr(name, cb)`. -/
def registerIoIntr (name : Bytes) (cb : Callback) (e : Engine) : Engine :=
  let p1 := e.params.setFirst name cb
  { e with params := p1.setSecond name none }

/-! ## `PyWrapper::compile`, `eval`, `exec`, `destroy` -/

/-- The start symbols handed to `Py_CompileString`. -/
inductive StartSymbol
  | Py_eval_input
  | Py_file_input
  deriving DecidableEq, Repr

/-- The engine's compiler `Py_CompileString(str, "", start)`, taken as given: the code object,
or `none` for `NULL` when `str` does not parse under `start`. -/
abbrev Compiler := Bytes → StartSymbol → Option Code

/-- The function `PyWrapper::compile(code, debug)`. -/
def compile (Py_CompileString : Compiler) (code : Bytes) (debug : Bool) :
    Except Error ByteCode :=
  match Py_CompileString (c_str code) .Py_eval_input with
  | some bytecode => .ok ⟨some bytecode, true⟩
  | none =>
    match Py_CompileString (c_str (code ++ [10])) .Py_file_input with
    | some bytecode => .ok ⟨some bytecode, false⟩
    | none => .error .SyntaxError

/-- The loop `for (auto& keyval: args)` of `eval` over the arguments in key order, on the
local namespace and `names_to_clear`. It stops at the first `throw` (or failed assertion) and
hands back the namespace and names as they are at that point. -/
def eval_args : List (Bytes × Variant) → Dict → List Bytes → Option Error × Dict × List Bytes
  | [], locDict, names_to_clear => (none, locDict, names_to_clear)
  | keyval :: rest, locDict, names_to_clear =>
    match eval_item keyval.2 with
    | .error err => (some err, locDict, names_to_clear)
    | .ok none => (some .ArgumentError, locDict, names_to_clear)
    | .ok (some item) =>
      let set := PyDict_SetItemString locDict keyval.1 item
      eval_args rest set.1 (if set.2 then names_to_clear ++ [keyval.1] else names_to_clear)

/-- The loop `for (const auto& key: names_to_clear)` of `eval`: delete from the local
namespace, else from the global one, else only report. -/
def eval_clear : List Bytes → Engine → Engine
  | [], e => e
  | key :: rest, e =>
    let loc := PyDict_DelItemString e.locDict key
    if loc.2 then eval_clear rest { e with locDict := loc.1 }
    else
      let glob := PyDict_DelItemString e.globDict key
      if glob.2 then eval_clear rest { e with globDict := glob.1 }
      else eval_clear rest e

/-- The function `PyWrapper::eval(bytecode, args, debug)`: the returned value or the exception thrown, and
the process-wide state afterwards. `args` lists the map in its iteration (key) order; `debug`
only selects printing. A `KeyError` left set by a deletion that failed during cleanup is not
tracked. -/
def eval (bytecode : ByteCode) (args : List (Bytes × Variant)) (debug : Bool) (e : Engine) :
    Except Error Variant × Engine :=
  let bound := eval_args args e.locDict []
  let e1 := { e with locDict := bound.2.1 }
  match bound.1 with
  | some err => (.error err, e1)
  | none =>
    match bytecode.code with
    | none => (.error .invalid_argument, e1)
    | some code =>
      let r := code e1
      let e2 := if bytecode.clear_pyobjects then eval_clear bound.2.2 r.2 else r.2
      match r.1 with
      | none => (.error .EvalError, e2)
      | some obj =>
        let val := convert obj .NONE
        (.ok val.2, e2)

/-- The function `PyWrapper::destroy(bytecode)`: the fragment afterwards. -/
def destroy (bytecode : ByteCode) : ByteCode :=
  { bytecode with code := none }

/-- What a call of `exec` leaves: the returned value or the exception, the process-wide state,
and the local `bytecode` as its destructor finds it when `exec` is left (`none` when `compile`
threw, so that the local was never constructed). -/
structure ExecResult where
  result : Except Error Variant
  engine : Engine
  bytecode : Option ByteCode

/-- The function `PyWrapper::exec(code, args, debug)`. An exception thrown by `eval` leaves `exec` at once:
the statement `destroy(std::move(bytecode))` after it is not reached. -/
def exec (Py_CompileString : Compiler) (code : Bytes) (args : List (Bytes × Variant))
    (debug : Bool) (e : Engine) : ExecResult :=
  match compile Py_CompileString code true with
  | .error err => ⟨.error err, e, none⟩
  | .ok bytecode =>
    match eval bytecode args true e with
    | (.error err, e1) => ⟨.error err, e1, some bytecode⟩
    | (.ok r, e1) => ⟨.ok r, e1, some (destroy bytecode)⟩

/-! ## Vocabulary of the properties -/

/-- Every code point (or byte) is below 128: the text has an ASCII encoding. -/
def ascii_text (cps : List Nat) : Bool :=
  cps.all (fun c => decide (c < 128))

/-- ASCII text without the character NUL. -/
def plain_text (cps : List Nat) : Bool :=
  cps.all (fun c => decide (0 < c) && decide (c < 128))

/-- The vector tag an element asks for by its type: `int`, `float` or text; `none` for an
element of any other type (booleans are looked at separately). -/
def element_tag : PyObj → Option VariantType
  | .long _ => some .VECTOR_LONG
  | .float _ => some .VECTOR_DOUBLE
  | .unicode _ => some .VECTOR_STRING
  | _ => none

/-- The values of the `int` elements of a list, in order. -/
def longs_of (items : List PyObj) : List Int :=
  items.filterMap (fun el => match el with | .long n => some n | _ => none)

/-- The values of the `float` elements of a list, in order. -/
def doubles_of (items : List PyObj) : List Dbl :=
  items.filterMap (fun el => match el with | .float d => some d | _ => none)

/-- The characters of the text elements of a list, in order. -/
def texts_of (items : List PyObj) : List Bytes :=
  items.filterMap (fun el => match el with | .unicode cps => some cps | _ => none)

/-- The vector the inference rule describes: the tag is fixed by the first element of an
accepted type, the contents are the elements of that one type in order; an empty
`VECTOR_DOUBLE` when no element is of an accepted type. -/
def vector_of_first_accepted (items : List PyObj) : Variant :=
  match items.findSome? element_tag with
  | some .VECTOR_LONG => .VECTOR_LONG (longs_of items)
  | some .VECTOR_STRING => .VECTOR_STRING (texts_of items)
  | some .VECTOR_DOUBLE => .VECTOR_DOUBLE (doubles_of items)
  | _ => .VECTOR_DOUBLE []

/-- The vector the loop builds from a list whose elements cannot fail: as
`vector_of_first_accepted`, with every text cut at its first NUL. -/
def vector_of_loop (items : List PyObj) : Variant :=
  match items.findSome? element_tag with
  | some .VECTOR_LONG => .VECTOR_LONG (longs_of items)
  | some .VECTOR_STRING => .VECTOR_STRING ((texts_of items).map c_str)
  | some .VECTOR_DOUBLE => .VECTOR_DOUBLE (doubles_of items)
  | _ => .VECTOR_DOUBLE []

/-- An element whose extraction cannot fail and that is not a boolean: an `int` within the
range of `long long`, a `float`, a text that `ok` accepts, or an object of another type. -/
def element_within (ok : List Nat → Bool) : PyObj → Bool
  | .long n => fitsLongLong n
  | .unicode cps => ok cps
  | .bool _ => false
  | _ => true

/-- An object of a type the list loop does not accept: not `int`, `bool`, `float` or text. -/
def unsupported_element : PyObj → Bool
  | .long _ => false
  | .bool _ => false
  | .float _ => false
  | .unicode _ => false
  | _ => true

/-- An element whose extraction fails: an `int` outside the range of `long long`, or a text
without ASCII encoding. -/
def failing_element : PyObj → Bool
  | .long n => !fitsLongLong n
  | .unicode cps => !ascii_text cps
  | _ => false

/-- The values for which building the engine object and converting it back gives the value
itself: `BOOL`, `LONG`, `DOUBLE`, `VECTOR_DOUBLE`, `STRING` of plain text, and non-empty
`VECTOR_LONG` and `VECTOR_STRING` (of plain texts). -/
def Variant.round_trips : Variant → Bool
  | .BOOL _ => true
  | .LONG n => fitsLongLong n
  | .DOUBLE _ => true
  | .STRING s => plain_text s
  | .VECTOR_LONG xs => !xs.isEmpty && xs.all fitsLongLong
  | .VECTOR_DOUBLE _ => true
  | .VECTOR_STRING xs => !xs.isEmpty && xs.all plain_text
  | _ => false

/-! ## Sample data for concrete runs -/

/-- A state with empty namespaces, no registered parameter and no callback run so far. -/
def Engine.empty : Engine := ⟨[], [], [], []⟩

/-- A stand-in for the engine's compiler on two expressions: `x`, which evaluates to the
object bound to the local name `x` (raising when it is unbound), and `1/0`, which raises.
Nothing else parses. -/
def sample_compiler : Compiler := fun str start =>
  match start with
  | .Py_eval_input =>
    if str = ascii "x" then some (fun e => (PyDict_GetItem e.locDict (ascii "x"), e))
    else if str = ascii "1/0" then some (fun e => (none, e))
    else none
  | .Py_file_input => none

/-! ## The execution lock (`PyGIL`) -/

/-- The value `PyGILState_Ensure` hands back: whether the calling thread held the lock
already (`PyGILState_LOCKED`) or had to take it (`PyGILState_UNLOCKED`). -/
inductive PyGILState_STATE
  | PyGILState_LOCKED
  | PyGILState_UNLOCKED
  deriving DecidableEq, Repr

/-- A call on the execution lock. -/
inductive GilCall
  | Ensure
  | Release
  deriving DecidableEq, Repr

/-- The execution lock as the calling thread sees it: whether the thread holds it, and the
calls it has made on it so far. Waiting for the lock is not modelled: `PyGILState_Ensure`
returns once the thread holds the lock. -/
structure Gil where
  held : Bool
  calls : List GilCall
  deriving DecidableEq, Repr

/-- The call `PyGILState_Ensure()`: afterwards the thread holds the lock. -/
def PyGILState_Ensure (g : Gil) : PyGILState_STATE × Gil :=
  (if g.held then .PyGILState_LOCKED else .PyGILState_UNLOCKED,
    { held := true, calls := g.calls ++ [.Ensure] })

/-- The call `PyGILState_Release(state)`: the thread gives the lock back when it had taken it
in the matching `PyGILState_Ensure`. -/
def PyGILState_Release (state : PyGILState_STATE) (g : Gil) : Gil :=
  { held := (match state with
      | .PyGILState_LOCKED => g.held
      | .PyGILState_UNLOCKED => false),
    calls := g.calls ++ [.Release] }

/-- The guard `struct PyGIL`: its member `state`. -/
structure PyGIL where
  state : PyGILState_STATE
  deriving DecidableEq, Repr

/-- The constructor `PyGIL::PyGIL()`. -/
def PyGIL.construct (g : Gil) : PyGIL × Gil :=
  ((⟨(PyGILState_Ensure g).1⟩ : PyGIL), (PyGILState_Ensure g).2)

/-- The destructor `PyGIL::~PyGIL()`. -/
def PyGIL.destruct (gil : PyGIL) (g : Gil) : Gil :=
  PyGILState_Release gil.state g

/-- A function body whose first statement is `PyGIL gil;`: the guard is constructed, the body
runs, and the guard is destructed when the body is left, by `return` or by an exception. The
body is given the lock as it is while it runs. -/
def with_PyGIL {α : Type} (body : Gil → α) (g : Gil) : α × Gil :=
  let gil := PyGIL.construct g
  (body gil.2, PyGIL.destruct gil.1 gil.2)

/-- The function `PyWrapper::compile` with its guard (line 366). -/
def compile_guarded (Py_CompileString : Compiler) (code : Bytes) (debug : Bool) (g : Gil) :
    Except Error ByteCode × Gil :=
  with_PyGIL (fun _ => compile Py_CompileString code debug) g

/-- The function `PyWrapper::eval` with its guard (line 389). -/
def eval_guarded (bytecode : ByteCode) (args : List (Bytes × Variant)) (debug : Bool)
    (e : Engine) (g : Gil) : (Except Error Variant × Engine) × Gil :=
  with_PyGIL (fun _ => eval bytecode args debug e) g

/-- The function `PyWrapper::destroy` with its guard (line 538). -/
def destroy_guarded (bytecode : ByteCode) (g : Gil) : ByteCode × Gil :=
  with_PyGIL (fun _ => destroy bytecode) g

/-- The function `pydev_iointr` and the lock: its body (lines 83 to 136) constructs no guard
and makes no call on the lock. -/
def pydev_iointr_guarded (args : List PyObj) (e : Engine) (g : Gil) : IoIntrResult × Gil :=
  (pydev_iointr args e, g)

/-- A stand-in for the engine's compiler that, besides the expressions of `sample_compiler`,
parses the statement `import math` (which binds the name `math` and yields `None`). -/
def sample_compiler_statements : Compiler := fun str start =>
  match start with
  | .Py_eval_input => sample_compiler str .Py_eval_input
  | .Py_file_input =>
    if str = ascii "import math" ++ [10] then
      some (fun e =>
        (some .none, { e with locDict := PyDict_SetItem e.locDict (ascii "math") (.other 0) }))
    else none

/-- One written value per boolean of a list, twice: what the list loop stores for it. -/
def twice_each (bs : List Bool) : List Int :=
  bs.flatMap (fun b => [if b then 1 else 0, if b then 1 else 0])

/-! ## Utilities (`src/util.cpp`)

Characters are byte values; the character classes are those of the C locale. A `size_t`
position never leaves the range of the string it indexes, so positions are natural numbers;
the statement `pos += replacement.length() - 1` and the `pos++` of the loop header that
follows it add `replacement.length()` in total (modulo `2^64`, also when the replacement is
empty). A loop that may not end is given fuel, and `none` stands for a run that does not end.
-/

/-- The class `isupper` of the C locale. -/
def isupper (c : Nat) : Bool :=
  decide (65 ≤ c) && decide (c ≤ 90)

/-- The class `islower` of the C locale. -/
def islower (c : Nat) : Bool :=
  decide (97 ≤ c) && decide (c ≤ 122)

/-- The class `isalpha` of the C locale. -/
def isalpha (c : Nat) : Bool :=
  isupper c || islower c

/-- The class `isdigit`. -/
def isdigit (c : Nat) : Bool :=
  decide (48 ≤ c) && decide (c ≤ 57)

/-- The class `isalnum` of the C locale. -/
def isalnum (c : Nat) : Bool :=
  isalpha c || isdigit c

/-- The test `s.compare(pos, len, str) == 0`: the substring of `s` that starts at `pos` and
has at most `len` characters equals `str`. -/
def string_compare_eq (s : Bytes) (pos len : Nat) (str : Bytes) : Bool :=
  decide ((s.drop pos).take len = str)

/-- The string after `s.replace(pos, len, str)`. -/
def string_replace (s : Bytes) (pos len : Nat) (str : Bytes) : Bytes :=
  s.take pos ++ str ++ s.drop (pos + len)

/-- The character `s.at(i)`, for `i` within the string. -/
def string_at (s : Bytes) (i : Nat) : Nat :=
  s.getD i 0

/-- The body of the loop of `Util::getMacros` from position `i` on, over the rest of `text`,
with the locals `token`, `prevChar` and `fields`; at the end of the text, the statements after
the loop. `MAX_FIELD_LEN` is 4. -/
def Util.getMacros_loop : Bytes → Bytes → Nat → List Bytes → List Bytes
  | [], token, _, fields =>
    if !token.isEmpty then
      if token.length ≤ 4 then fields ++ [token] else fields
    else fields
  | c :: rest, token, prevChar, fields =>
    if isupper c then
      if !isalpha prevChar || !token.isEmpty then
        Util.getMacros_loop rest (token ++ [c]) c fields
      else Util.getMacros_loop rest token c fields
    else if islower c then
      Util.getMacros_loop rest [] c fields
    else
      if !token.isEmpty then
        Util.getMacros_loop rest [] c (if token.length ≤ 4 then fields ++ [token] else fields)
      else Util.getMacros_loop rest token c fields

/-- The function `Util::getMacros(text)`. -/
def Util.getMacros (text : Bytes) : List Bytes :=
  Util.getMacros_loop text [] 0 []

/-- The loop of `Util::replaceMacro` on the locals `out`, `pos` and `replaced`. -/
def Util.replaceMacro_loop (search replacement : Bytes) : Nat → Bytes → Nat → Bool → Option Bytes
  | 0, _, _, _ => none
  | fuel + 1, out, pos, replaced =>
    if pos < out.length then
      if string_compare_eq out pos search.length search &&
          (!isalnum (if pos = 0 || replaced then 46 else string_at out (pos - 1)) &&
            !isalnum (if pos + search.length ≥ out.length then 46
              else string_at out (pos + search.length))) then
        Util.replaceMacro_loop search replacement fuel
          (string_replace out pos search.length replacement) (pos + replacement.length) true
      else if string_compare_eq out pos ([37] ++ search ++ [37]).length
          ([37] ++ search ++ [37]) then
        Util.replaceMacro_loop search replacement fuel
          (string_replace out pos ([37] ++ search ++ [37]).length replacement)
          (pos + replacement.length) true
      else Util.replaceMacro_loop search replacement fuel out (pos + 1) false
    else some out

/-- The function `Util::replaceMacro(text, search, replacement)`. Every turn of the loop but
the last passes over at least one character of `text`, unless `search` is empty and the loop
never ends; so `text.length + 1` turns are enough whenever it ends. -/
def Util.replaceMacro (text search replacement : Bytes) : Option Bytes :=
  Util.replaceMacro_loop search replacement (text.length + 1) text 0 false

/-- The inner loop `for (auto& field: fields)` of `Util::replace` at `pos`: the first field,
in key order, whose key stands at `pos`. -/
def Util.replace_field (out : Bytes) (pos : Nat) : List (Bytes × Bytes) → Option (Bytes × Bytes)
  | [] => none
  | field :: rest =>
    if string_compare_eq out pos field.1.length field.1 then some field
    else Util.replace_field out pos rest

/-- The outer loop of `Util::replace` on the locals `out` and `pos`. -/
def Util.replace_loop (fields : List (Bytes × Bytes)) : Nat → Bytes → Nat → Option Bytes
  | 0, _, _ => none
  | fuel + 1, out, pos =>
    if pos < out.length then
      match Util.replace_field out pos fields with
      | some field =>
        Util.replace_loop fields fuel (string_replace out pos field.1.length field.2)
          (pos + field.2.length)
      | none => Util.replace_loop fields fuel out (pos + 1)
    else some out

/-- The function `Util::replace(text, fields)`; `fields` lists the map in key order. Every
turn of the loop but the last passes over at least one character of `text`, unless a key is
empty and the loop never ends; so `text.length + 1` turns are enough whenever it ends. -/
def Util.replace (text : Bytes) (fields : List (Bytes × Bytes)) : Option Bytes :=
  Util.replace_loop fields (text.length + 1) text 0

/-- The map `escapables` of `Util::escape`, in key order: line feed, carriage return, single
quote. -/
def Util.escapables : List (Bytes × Bytes) :=
  [([10], [92, 110]), ([13], [92, 114]), ([39], [92, 39])]

/-- The function `Util::escape(text)`. -/
def Util.escape (text : Bytes) : Option Bytes :=
  Util.replace text Util.escapables

/-- The character-wise map of the escaping: line feed to backslash `n`, carriage return to
backslash `r`, single quote to backslash and single quote, any other character to itself. -/
def escape_char (c : Nat) : Bytes :=
  if c = 10 then [92, 110]
  else if c = 13 then [92, 114]
  else if c = 39 then [92, 39]
  else [c]

/-- A character is a letter, when there is one. -/
def is_letter (o : Option Nat) : Bool :=
  match o with
  | none => false
  | some c => isalpha c

/-- The field names as the rule for `getMacros` describes them, reading the text from the
left with the character `before` in front of it: at every character that starts a maximal run
of upper-case letters, the run is listed when it has at most 4 letters, is preceded by the
start of the text or a non-letter, and is followed by the end of the text or a non-letter. -/
def macro_runs : Option Nat → Bytes → List Bytes
  | _, [] => []
  | before, c :: rest =>
    if isupper c && !(match before with | none => false | some p => isupper p) then
      (if decide ((c :: rest.takeWhile isupper).length ≤ 4) && !is_letter before
            && !is_letter (rest.dropWhile isupper).head? then
          [c :: rest.takeWhile isupper]
        else []) ++ macro_runs (some c) rest
    else macro_runs (some c) rest

/-- A neighbour of an occurrence that lets it be replaced: no character at all (start or end
of the text) or a character that is not alphanumeric. -/
def boundary (o : Option Nat) : Bool :=
  match o with
  | none => true
  | some c => !isalnum c

/-- The replacement as the rule for `replaceMacro` describes it, reading the input text from
the left; `before` is the character of the input text in front of the current position and
`skip` the number of characters still to pass over because they belong to an occurrence
already replaced. A bare occurrence of `search` is replaced when the characters of the input
text before and after it are boundaries; an occurrence written between two `%` is replaced
together with them; any other character is kept. -/
def macro_scan (search replacement : Bytes) : Option Nat → Nat → Bytes → Bytes
  | _, _, [] => []
  | _, skip + 1, c :: rest => macro_scan search replacement (some c) skip rest
  | before, 0, c :: rest =>
    if decide ((c :: rest).take search.length = search) && boundary before
        && boundary ((c :: rest).drop search.length).head? then
      replacement ++ macro_scan search replacement (some c) (search.length - 1) rest
    else if decide ((c :: rest).take (search.length + 2) = [37] ++ search ++ [37]) then
      replacement ++ macro_scan search replacement (some c) (search.length + 1) rest
    else c :: macro_scan search replacement (some c) 0 rest

/-- The vector tag an element fixes when it is met while no tag is fixed yet: `VECTOR_LONG` for
an `int` or a `bool`, `VECTOR_DOUBLE` for a `float`, `VECTOR_STRING` for a text; `none` for an
element of any other type. -/
def accepted_tag : PyObj → Option VariantType
  | .long _ => some .VECTOR_LONG
  | .bool _ => some .VECTOR_LONG
  | .float _ => some .VECTOR_DOUBLE
  | .unicode _ => some .VECTOR_STRING
  | _ => none

/-- The vector tag as it stands after the elements `items` of a list: the one fixed by the
first of them that is an `int`, a `bool`, a `float` or a text; `NONE`, still unset, when none
of them is. -/
def tag_fixed_by (items : List PyObj) : VariantType :=
  (items.findSome? accepted_tag).getD .NONE

/-- The values the local `t` of the list loop takes: unset, or one of the three vector tags. -/
def loop_tag (t : VariantType) : Bool :=
  match t with
  | .NONE => true
  | .VECTOR_LONG => true
  | .VECTOR_DOUBLE => true
  | .VECTOR_STRING => true
  | _ => false

/-! ## Lemmas on strings -/

theorem c_str_of_plain_text (s : List Nat) (h : plain_text s = true) : c_str s = s := by
  induction s with
  | nil => rfl
  | cons b rest ih =>
    simp only [plain_text, List.all_cons, Bool.and_eq_true, decide_eq_true_eq] at h
    have hb : (b != 0) = true := by simp; omega
    have hr : plain_text rest = true := by
      simp only [plain_text]; exact h.2
    simp only [c_str, List.takeWhile_cons, hb, if_true]
    exact congrArg (List.cons b) (ih hr)

theorem ascii_text_of_plain_text (s : List Nat) (h : plain_text s = true) :
    ascii_text s = true := by
  simp only [plain_text, ascii_text, List.all_eq_true, Bool.and_eq_true,
    decide_eq_true_eq] at h ⊢
  exact fun c hc => (h c hc).2

theorem utf8_decode_from_of_ascii_text (s : List Nat) (h : ascii_text s = true)
    (st : Utf8State) (hst : st.need = 0) : utf8_decode_from st s = some s := by
  induction s with
  | nil => simp [utf8_decode_from, hst]
  | cons b rest ih =>
    simp only [ascii_text, List.all_cons, Bool.and_eq_true, decide_eq_true_eq] at h
    have hr : ascii_text rest = true := by
      simp only [ascii_text]; exact h.2
    have hb : b < 128 := h.1
    simp [utf8_decode_from, hst, hb, ih hr]

theorem utf8_decode_of_ascii_text (s : List Nat) (h : ascii_text s = true) :
    utf8_decode s = some s :=
  utf8_decode_from_of_ascii_text s h _ rfl

theorem PyUnicode_FromString_of_plain_text (s : Bytes) (h : plain_text s = true) :
    PyUnicode_FromString s = some (.unicode s) := by
  simp [PyUnicode_FromString, c_str_of_plain_text s h,
    utf8_decode_of_ascii_text s (ascii_text_of_plain_text s h)]

/-! ## Lemmas on the list loop of `convert` -/

theorem convert_element_long (s : ListLocals) (n : Int) (h : fitsLongLong n = true) :
    convert_element s (.long n) =
      some (if s.t = .NONE ∨ s.t = .VECTOR_LONG
        then { s with vl := s.vl ++ [n], t := .VECTOR_LONG } else s) := by
  by_cases ht : s.t = .NONE ∨ s.t = .VECTOR_LONG
  · simp [convert_element, PyLong_Check, PyBool_Check, PyFloat_Check, PyUnicode_Check,
      PyLong_AsLong, h, ht]
  · simp [convert_element, PyLong_Check, PyBool_Check, PyFloat_Check, PyUnicode_Check, ht]

theorem convert_element_long_fails (s : ListLocals) (n : Int) (h : fitsLongLong n = false)
    (ht : s.t = .NONE ∨ s.t = .VECTOR_LONG) : convert_element s (.long n) = none := by
  simp [convert_element, PyLong_Check, PyLong_AsLong, h, ht]

theorem convert_element_float (s : ListLocals) (d : Dbl) :
    convert_element s (.float d) =
      some (if s.t = .NONE ∨ s.t = .VECTOR_DOUBLE
        then { s with vd := s.vd ++ [d], t := .VECTOR_DOUBLE } else s) := by
  by_cases ht : s.t = .NONE ∨ s.t = .VECTOR_DOUBLE
  · simp [convert_element, PyLong_Check, PyBool_Check, PyFloat_Check, PyUnicode_Check,
      PyFloat_AsDouble, ht]
  · simp [convert_element, PyLong_Check, PyBool_Check, PyFloat_Check, PyUnicode_Check, ht]

theorem convert_element_unicode (s : ListLocals) (cps : List Nat)
    (h : ascii_text cps = true) :
    convert_element s (.unicode cps) =
      some (if s.t = .NONE ∨ s.t = .VECTOR_STRING
        then { s with vs := s.vs ++ [c_str cps], t := .VECTOR_STRING } else s) := by
  have h1 : (cps.all fun c => decide (c < 128)) = true := h
  by_cases ht : s.t = .NONE ∨ s.t = .VECTOR_STRING
  · simp [convert_element, PyLong_Check, PyBool_Check, PyFloat_Check, PyUnicode_Check,
      PyUnicode_AsASCIIString, PyBytes_AsString, h1, ht]
  · simp [convert_element, PyLong_Check, PyBool_Check, PyFloat_Check, PyUnicode_Check, ht]

theorem convert_element_unicode_fails (s : ListLocals) (cps : List Nat)
    (h : ascii_text cps = false) (ht : s.t = .NONE ∨ s.t = .VECTOR_STRING) :
    convert_element s (.unicode cps) = none := by
  have h1 : (cps.all fun c => decide (c < 128)) = false := h
  simp [convert_element, PyLong_Check, PyBool_Check, PyFloat_Check, PyUnicode_Check,
    PyUnicode_AsASCIIString, h1, ht]

theorem convert_element_unsupported (s : ListLocals) (el : PyObj)
    (h : unsupported_element el = true) : convert_element s el = some s := by
  cases el <;>
    simp_all [unsupported_element, convert_element, PyLong_Check, PyBool_Check,
      PyFloat_Check, PyUnicode_Check]

theorem convert_element_at_double (s : ListLocals) (ht : s.t = .VECTOR_DOUBLE) (el : PyObj) :
    convert_element s el =
      some (match el with
        | .float d => { s with vd := s.vd ++ [d] }
        | _ => s) := by
  obtain ⟨vd, vl, vs, t⟩ := s
  simp only at ht
  subst ht
  cases el <;>
    simp [convert_element, PyLong_Check, PyBool_Check, PyFloat_Check, PyUnicode_Check,
      PyFloat_AsDouble]

theorem convert_element_at_long (s : ListLocals) (ht : s.t = .VECTOR_LONG) (el : PyObj)
    (h : element_within (fun _ => true) el = true) :
    convert_element s el =
      some (match el with
        | .long n => { s with vl := s.vl ++ [n] }
        | _ => s) := by
  obtain ⟨vd, vl, vs, t⟩ := s
  simp only at ht
  subst ht
  cases el with
  | bool b => simp [element_within] at h
  | long n =>
    have hn : fitsLongLong n = true := by simpa [element_within] using h
    simp [convert_element, PyLong_Check, PyBool_Check, PyFloat_Check, PyUnicode_Check,
      PyLong_AsLong, hn]
  | _ =>
    simp [convert_element, PyLong_Check, PyBool_Check, PyFloat_Check, PyUnicode_Check]

theorem convert_element_at_string (s : ListLocals) (ht : s.t = .VECTOR_STRING) (el : PyObj)
    (h : ∀ cps, el = .unicode cps → ascii_text cps = true) :
    convert_element s el =
      some (match el with
        | .unicode cps => { s with vs := s.vs ++ [c_str cps] }
        | _ => s) := by
  obtain ⟨vd, vl, vs, t⟩ := s
  simp only at ht
  subst ht
  cases el with
  | unicode cps =>
    have h1 : (cps.all fun c => decide (c < 128)) = true := h cps rfl
    simp [convert_element, PyLong_Check, PyBool_Check, PyFloat_Check, PyUnicode_Check,
      PyUnicode_AsASCIIString, PyBytes_AsString, h1]
  | _ =>
    simp [convert_element, PyLong_Check, PyBool_Check, PyFloat_Check, PyUnicode_Check]

theorem convert_loop_at_double (items : List PyObj) (s : ListLocals)
    (ht : s.t = .VECTOR_DOUBLE) :
    convert_loop items s = some { s with vd := s.vd ++ doubles_of items } := by
  induction items generalizing s with
  | nil => simp [convert_loop, doubles_of]
  | cons el rest ih =>
    rw [convert_loop, convert_element_at_double s ht el]
    cases el <;> simp [ih, ht, doubles_of]

theorem convert_loop_at_long (items : List PyObj) (s : ListLocals)
    (ht : s.t = .VECTOR_LONG)
    (h : ∀ el ∈ items, element_within (fun _ => true) el = true) :
    convert_loop items s = some { s with vl := s.vl ++ longs_of items } := by
  induction items generalizing s with
  | nil => simp [convert_loop, longs_of]
  | cons el rest ih =>
    have hel := h el (List.mem_cons_self _ _)
    have hrest : ∀ x ∈ rest, element_within (fun _ => true) x = true :=
      fun x hx => h x (List.mem_cons_of_mem _ hx)
    rw [convert_loop, convert_element_at_long s ht el hel]
    cases el <;> simp only [] <;> rw [ih _ _ hrest] <;> simp [longs_of, ht]

theorem convert_loop_at_string (items : List PyObj) (s : ListLocals)
    (ht : s.t = .VECTOR_STRING)
    (h : ∀ cps, PyObj.unicode cps ∈ items → ascii_text cps = true) :
    convert_loop items s = some { s with vs := s.vs ++ (texts_of items).map c_str } := by
  induction items generalizing s with
  | nil => simp [convert_loop, texts_of]
  | cons el rest ih =>
    have hel : ∀ cps, el = .unicode cps → ascii_text cps = true :=
      fun cps e => h cps (e ▸ List.mem_cons_self _ _)
    have hrest : ∀ cps, PyObj.unicode cps ∈ rest → ascii_text cps = true :=
      fun cps hx => h cps (List.mem_cons_of_mem _ hx)
    rw [convert_loop, convert_element_at_string s ht el hel]
    cases el <;> simp only [] <;> rw [ih _ _ hrest] <;> simp [texts_of, ht]

theorem element_within_weaken (ok : List Nat → Bool) (el : PyObj)
    (h : element_within ok el = true) : element_within (fun _ => true) el = true := by
  cases el <;> simp_all [element_within]

theorem convert_loop_at_none (items : List PyObj) (s : ListLocals) (ht : s.t = .NONE)
    (h : ∀ el ∈ items, element_within ascii_text el = true) :
    convert_loop items s = some
      (match items.findSome? element_tag with
        | some .VECTOR_LONG => { s with vl := s.vl ++ longs_of items, t := .VECTOR_LONG }
        | some .VECTOR_STRING =>
          { s with vs := s.vs ++ (texts_of items).map c_str, t := .VECTOR_STRING }
        | some .VECTOR_DOUBLE => { s with vd := s.vd ++ doubles_of items, t := .VECTOR_DOUBLE }
        | _ => s) := by
  induction items generalizing s with
  | nil => simp [convert_loop]
  | cons el rest ih =>
    have hel := h el (List.mem_cons_self _ _)
    have hrest : ∀ x ∈ rest, element_within ascii_text x = true :=
      fun x hx => h x (List.mem_cons_of_mem _ hx)
    cases el with
    | long n =>
      have hn : fitsLongLong n = true := by simpa [element_within] using hel
      rw [convert_loop, convert_element_long s n hn]
      simp only [ht, true_or, if_true]
      rw [convert_loop_at_long rest _ rfl
        (fun x hx => element_within_weaken _ x (hrest x hx))]
      simp [element_tag, longs_of]
    | float d =>
      rw [convert_loop, convert_element_float s d]
      simp only [ht, true_or, if_true]
      rw [convert_loop_at_double rest _ rfl]
      simp [element_tag, doubles_of]
    | unicode cps =>
      have hc : ascii_text cps = true := by simpa [element_within] using hel
      rw [convert_loop, convert_element_unicode s cps hc]
      simp only [ht, true_or, if_true]
      rw [convert_loop_at_string rest _ rfl
        (fun c hx => by simpa [element_within] using hrest _ hx)]
      simp [element_tag, texts_of]
    | bool b => simp [element_within] at hel
    | none =>
      rw [convert_loop, convert_element_unsupported s PyObj.none rfl]
      simp only [ih s ht hrest]
      simp [element_tag, longs_of, doubles_of, texts_of]
    | bytes buf =>
      rw [convert_loop, convert_element_unsupported s (.bytes buf) rfl]
      simp only [ih s ht hrest]
      simp [element_tag, longs_of, doubles_of, texts_of]
    | list xs =>
      rw [convert_loop, convert_element_unsupported s (.list xs) rfl]
      simp only [ih s ht hrest]
      simp [element_tag, longs_of, doubles_of, texts_of]
    | other k =>
      rw [convert_loop, convert_element_unsupported s (.other k) rfl]
      simp only [ih s ht hrest]
      simp [element_tag, longs_of, doubles_of, texts_of]

theorem convert_list_within (items : List PyObj) (out : Variant)
    (h : ∀ el ∈ items, element_within ascii_text el = true) :
    convert (.list items) out = (true, vector_of_loop items) := by
  have hl := convert_loop_at_none items ⟨[], [], [], .NONE⟩ rfl h
  simp only [convert, PyUnicode_Check, PyBool_Check, PyLong_Check, PyFloat_Check, hl,
    vector_of_loop]
  rcases hf : items.findSome? element_tag with _ | t
  · simp [convert_result]
  · cases t <;> simp [convert_result]

/-! ## Lemmas on building lists -/

theorem eval_append_eq {α : Type} (mk : α → Option PyObj) (f : α → PyObj) (vals : List α)
    (item : List PyObj) (h : ∀ val ∈ vals, mk val = some (f val)) :
    eval_append mk vals item = .ok (.list (item ++ vals.map f)) := by
  induction vals generalizing item with
  | nil => simp [eval_append]
  | cons val rest ih =>
    rw [eval_append, h val (List.mem_cons_self _ _)]
    simp only []
    rw [ih _ (fun x hx => h x (List.mem_cons_of_mem _ hx))]
    simp

theorem longs_of_map_long (xs : List Int) : longs_of (xs.map PyObj.long) = xs := by
  induction xs with
  | nil => rfl
  | cons x rest ih => simpa [longs_of] using ih

theorem doubles_of_map_float (xs : List Dbl) : doubles_of (xs.map PyObj.float) = xs := by
  induction xs with
  | nil => rfl
  | cons x rest ih => simpa [doubles_of] using ih

theorem texts_of_map_unicode (xs : List Bytes) : texts_of (xs.map PyObj.unicode) = xs := by
  induction xs with
  | nil => rfl
  | cons x rest ih => simpa [texts_of] using ih

theorem map_c_str_of_plain_text (xs : List (List Nat))
    (h : ∀ x ∈ xs, plain_text x = true) : xs.map c_str = xs := by
  induction xs with
  | nil => rfl
  | cons x rest ih =>
    rw [List.map_cons, c_str_of_plain_text x (h x (List.mem_cons_self _ _)),
      ih (fun y hy => h y (List.mem_cons_of_mem _ hy))]

theorem convert_vector_long (xs : List Int) (out : Variant) (hne : xs ≠ [])
    (h : ∀ x ∈ xs, fitsLongLong x = true) :
    convert (.list (xs.map PyObj.long)) out = (true, .VECTOR_LONG xs) := by
  rw [convert_list_within _ _ (by
    intro el hel
    obtain ⟨x, hx, rfl⟩ := List.mem_map.1 hel
    simpa [element_within] using h x hx)]
  cases xs with
  | nil => exact absurd rfl hne
  | cons x rest =>
    have := longs_of_map_long (x :: rest)
    simp only [List.map_cons] at this
    simp [vector_of_loop, element_tag, this]

theorem convert_vector_double (xs : List Dbl) (out : Variant) :
    convert (.list (xs.map PyObj.float)) out = (true, .VECTOR_DOUBLE xs) := by
  rw [convert_list_within _ _ (by
    intro el hel
    obtain ⟨x, hx, rfl⟩ := List.mem_map.1 hel
    simp [element_within])]
  cases xs with
  | nil => simp [vector_of_loop]
  | cons x rest =>
    have := doubles_of_map_float (x :: rest)
    simp only [List.map_cons] at this
    simp [vector_of_loop, element_tag, this]

theorem convert_vector_string (xs : List Bytes) (out : Variant) (hne : xs ≠ [])
    (h : ∀ x ∈ xs, plain_text x = true) :
    convert (.list (xs.map PyObj.unicode)) out = (true, .VECTOR_STRING xs) := by
  rw [convert_list_within _ _ (by
    intro el hel
    obtain ⟨x, hx, rfl⟩ := List.mem_map.1 hel
    simpa [element_within] using ascii_text_of_plain_text x (h x hx))]
  cases xs with
  | nil => exact absurd rfl hne
  | cons x rest =>
    have h1 := texts_of_map_unicode (x :: rest)
    have h2 := map_c_str_of_plain_text (x :: rest) h
    simp only [List.map_cons] at h1 h2
    simp [vector_of_loop, element_tag, h1, h2]

/-! ## Round trip -/

/-- C1, as amended: for every value that is a `BOOL`, a `LONG`, a `DOUBLE`, a
`VECTOR_DOUBLE` (empty or not), a `STRING` of ASCII text without NUL, a non-empty
`VECTOR_LONG`, or a non-empty `VECTOR_STRING` of such texts, the argument loop of `eval`
builds an engine object, and `convert` on that object succeeds and yields the value itself. -/
theorem round_trip_amended (v : Variant) (h : v.round_trips = true) (out : Variant) :
    ∃ o, eval_item v = .ok (some o) ∧ convert o out = (true, v) := by
  cases v with
  | NONE => simp [Variant.round_trips] at h
  | UNSIGNED n => simp [Variant.round_trips] at h
  | VECTOR_UNSIGNED xs => simp [Variant.round_trips] at h
  | BOOL b =>
    cases b <;>
      exact ⟨_, rfl, by
        simp [convert, Py_True, Py_False, PyUnicode_Check, PyBool_Check, PyObject_IsTrue]⟩
  | LONG n =>
    have hn : fitsLongLong n = true := h
    exact ⟨_, rfl, by
      simp [convert, PyLong_FromLongLong, PyUnicode_Check, PyBool_Check, PyLong_Check,
        PyLong_AsLongLong, hn]⟩
  | DOUBLE d =>
    exact ⟨_, rfl, by
      simp [convert, PyFloat_FromDouble, PyUnicode_Check, PyBool_Check, PyLong_Check,
        PyFloat_Check, PyFloat_AsDouble]⟩
  | STRING s =>
    have hs : plain_text s = true := h
    have ha : (s.all fun c => decide (c < 128)) = true := ascii_text_of_plain_text s hs
    refine ⟨.unicode s, ?_, ?_⟩
    · simp [eval_item, PyUnicode_FromString_of_plain_text s hs]
    · simp [convert, PyUnicode_Check, PyUnicode_AsASCIIString, PyBytes_AsString, ha,
        c_str_of_plain_text s hs]
  | VECTOR_LONG xs =>
    simp only [Variant.round_trips, Bool.and_eq_true, Bool.not_eq_true', List.isEmpty_eq_false,
      List.all_eq_true] at h
    refine ⟨.list (xs.map PyObj.long), ?_, convert_vector_long xs out h.1 h.2⟩
    have he := eval_append_eq (fun val => some (PyLong_FromLongLong val)) PyObj.long xs []
      (fun _ _ => rfl)
    simp [eval_item, he, Except.map]
  | VECTOR_DOUBLE xs =>
    refine ⟨.list (xs.map PyObj.float), ?_, convert_vector_double xs out⟩
    have he := eval_append_eq (fun val => some (PyFloat_FromDouble val)) PyObj.float xs []
      (fun _ _ => rfl)
    simp [eval_item, he, Except.map]
  | VECTOR_STRING xs =>
    simp only [Variant.round_trips, Bool.and_eq_true, Bool.not_eq_true', List.isEmpty_eq_false,
      List.all_eq_true] at h
    refine ⟨.list (xs.map PyObj.unicode), ?_, convert_vector_string xs out h.1 h.2⟩
    simp [eval_item, eval_append_eq PyUnicode_FromString PyObj.unicode xs []
      (fun x hx => PyUnicode_FromString_of_plain_text x (h.2 x hx)), Except.map]

/-- Witness: the vector of longs `[-1, 5]`. -/
theorem round_trip_amended_witness :
    ∃ o, eval_item (.VECTOR_LONG [-1, 5]) = .ok (some o) ∧
      convert o .NONE = (true, .VECTOR_LONG [-1, 5]) :=
  round_trip_amended (.VECTOR_LONG [-1, 5]) (by decide) .NONE

/-- C1 fails as stated: for the `UNSIGNED` value `2^63` the object built is the `int` `2^63`,
on which `convert` reports failure; an `UNSIGNED` value below `2^63` comes back tagged `LONG`;
an empty `VECTOR_LONG` comes back as an empty `VECTOR_DOUBLE`; a `STRING` holding the UTF-8
bytes of a non-ASCII character builds a text on which `convert` fails; a `STRING` with an
embedded NUL comes back cut at the NUL. -/
theorem round_trip_counterexample :
    (eval_item (.UNSIGNED (2 ^ 63)) = .ok (some (.long (2 ^ 63))) ∧
      convert (.long (2 ^ 63)) .NONE = (false, .NONE)) ∧
    (eval_item (.UNSIGNED 5) = .ok (some (.long 5)) ∧
      convert (.long 5) .NONE = (true, .LONG 5)) ∧
    (eval_item (.VECTOR_LONG []) = .ok (some (.list [])) ∧
      convert (.list []) .NONE = (true, .VECTOR_DOUBLE [])) ∧
    (eval_item (.STRING [0xC3, 0xA9]) = .ok (some (.unicode [0xE9])) ∧
      convert (.unicode [0xE9]) .NONE = (false, .NONE)) ∧
    (eval_item (.STRING [97, 0, 98]) = .ok (some (.unicode [97])) ∧
      convert (.unicode [97]) .NONE = (true, .STRING [97])) := by
  refine ⟨⟨rfl, ?_⟩, ⟨rfl, ?_⟩, ⟨rfl, ?_⟩, ⟨rfl, ?_⟩, ⟨rfl, ?_⟩⟩ <;> decide

/-! ## Lemmas on namespaces and on the argument loop -/

theorem PyDict_GetItem_SetItem_of_ne (d : Dict) (k key : List Nat) (item : PyObj)
    (h : k ≠ key) : PyDict_GetItem (PyDict_SetItem d k item) key = PyDict_GetItem d key := by
  induction d with
  | nil => simp [PyDict_SetItem, PyDict_GetItem, h]
  | cons kv rest ih =>
    obtain ⟨k1, v1⟩ := kv
    by_cases h1 : k1 = k
    · subst h1
      simp [PyDict_SetItem, PyDict_GetItem, h]
    · by_cases h2 : k1 = key
      · subst h2
        simp [PyDict_SetItem, PyDict_GetItem, h1]
      · simp [PyDict_SetItem, PyDict_GetItem, h1, h2, ih]

theorem PyDict_GetItem_SetItem_self (d : Dict) (k : List Nat) (item : PyObj) :
    PyDict_GetItem (PyDict_SetItem d k item) k = some item := by
  induction d with
  | nil => simp [PyDict_SetItem, PyDict_GetItem]
  | cons kv rest ih =>
    obtain ⟨k1, v1⟩ := kv
    by_cases h1 : k1 = k
    · simp [PyDict_SetItem, PyDict_GetItem, h1]
    · simp [PyDict_SetItem, PyDict_GetItem, h1, ih]

theorem PyDict_SetItemString_frame (d : Dict) (name : Bytes) (item : PyObj) (key : List Nat)
    (h : PyUnicode_FromString name ≠ some (.unicode key)) :
    PyDict_GetItem (PyDict_SetItemString d name item).1 key = PyDict_GetItem d key := by
  unfold PyDict_SetItemString
  rcases hn : PyUnicode_FromString name with _ | o
  · rfl
  · cases o with
    | unicode k =>
      have hk : k ≠ key := fun e => h (by rw [hn, e])
      simp [PyDict_GetItem_SetItem_of_ne d k key item hk]
    | _ => rfl

theorem eval_args_stops (pre post : List (Bytes × Variant)) (k : Bytes) (v : Variant)
    (hpre : ∀ kv ∈ pre, ∃ o, eval_item kv.2 = .ok (some o))
    (hv : eval_item v = .ok none) (locDict : Dict) (names : List Bytes) :
    eval_args (pre ++ (k, v) :: post) locDict names =
      (some .ArgumentError, (eval_args pre locDict names).2) := by
  induction pre generalizing locDict names with
  | nil => simp [eval_args, hv]
  | cons kv rest ih =>
    obtain ⟨o, ho⟩ := hpre kv (List.mem_cons_self _ _)
    have hrest : ∀ x ∈ rest, ∃ o, eval_item x.2 = .ok (some o) :=
      fun x hx => hpre x (List.mem_cons_of_mem _ hx)
    simp only [List.cons_append, eval_args, ho]
    exact ih hrest _ _

theorem eval_args_frame (args : List (Bytes × Variant)) (locDict : Dict) (names : List Bytes)
    (key : List Nat) (h : ∀ kv ∈ args, PyUnicode_FromString kv.1 ≠ some (.unicode key)) :
    PyDict_GetItem (eval_args args locDict names).2.1 key = PyDict_GetItem locDict key := by
  induction args generalizing locDict names with
  | nil => rfl
  | cons kv rest ih =>
    have hrest : ∀ x ∈ rest, PyUnicode_FromString x.1 ≠ some (.unicode key) :=
      fun x hx => h x (List.mem_cons_of_mem _ hx)
    rw [eval_args]
    rcases hi : eval_item kv.2 with err | item
    · rfl
    · cases item with
      | none => rfl
      | some item =>
        simp only []
        rw [ih _ _ hrest]
        exact PyDict_SetItemString_frame _ _ _ _ (h kv (List.mem_cons_self _ _))

/-! ## Failure of argument binding -/

/-- C2, as amended: when some argument yields no engine object (`item` stays `nullptr`) and
every argument before it in key order converts, `eval` fails with `ArgumentError`, whatever
the fragment is (its code is not run: the outcome is the same for every fragment), the global
namespace, the registry and the callbacks run are as before the call, and every name of the
local namespace that is not the name of an argument before the failing one is bound as before
the call; when the failing argument is the first in key order, nothing has changed. -/
theorem eval_argument_error_amended (bytecode : ByteCode) (pre post : List (Bytes × Variant))
    (k : Bytes) (v : Variant) (debug : Bool) (e : Engine)
    (hpre : ∀ kv ∈ pre, ∃ o, eval_item kv.2 = .ok (some o))
    (hv : eval_item v = .ok none) :
    (eval bytecode (pre ++ (k, v) :: post) debug e).1 = .error .ArgumentError ∧
    (∀ other : ByteCode, eval other (pre ++ (k, v) :: post) debug e =
      eval bytecode (pre ++ (k, v) :: post) debug e) ∧
    (eval bytecode (pre ++ (k, v) :: post) debug e).2.globDict = e.globDict ∧
    (eval bytecode (pre ++ (k, v) :: post) debug e).2.params = e.params ∧
    (eval bytecode (pre ++ (k, v) :: post) debug e).2.calls = e.calls ∧
    (∀ key : List Nat, (∀ kv ∈ pre, PyUnicode_FromString kv.1 ≠ some (.unicode key)) →
      PyDict_GetItem (eval bytecode (pre ++ (k, v) :: post) debug e).2.locDict key =
        PyDict_GetItem e.locDict key) ∧
    (pre = [] → (eval bytecode (pre ++ (k, v) :: post) debug e).2 = e) := by
  have hstop := eval_args_stops pre post k v hpre hv e.locDict []
  have hev : ∀ b : ByteCode, eval b (pre ++ (k, v) :: post) debug e =
      (.error .ArgumentError, { e with locDict := (eval_args pre e.locDict []).2.1 }) := by
    intro b
    simp [eval, hstop]
  refine ⟨by rw [hev], fun other => by rw [hev, hev], by rw [hev], by rw [hev], by rw [hev],
    ?_, ?_⟩
  · intro key hkey
    rw [hev]
    exact eval_args_frame pre e.locDict [] key hkey
  · intro hnil
    subst hnil
    rw [hev]
    rfl

/-- Witness: arguments `a = 1` and `b` of tag `NONE`. -/
theorem eval_argument_error_amended_witness :
    eval_item .NONE = .ok none ∧
    (eval ⟨none, true⟩ ([(ascii "a", .LONG 1)] ++ (ascii "b", .NONE) :: []) false
        Engine.empty).1 = .error .ArgumentError ∧
    (eval ⟨none, true⟩ ([(ascii "a", .LONG 1)] ++ (ascii "b", .NONE) :: []) false
        Engine.empty).2.globDict = Engine.empty.globDict :=
  have hpre : ∀ kv ∈ [(ascii "a", Variant.LONG 1)], ∃ o, eval_item kv.2 = .ok (some o) := by
    intro kv hkv
    simp only [List.mem_singleton] at hkv
    subst hkv
    exact ⟨_, rfl⟩
  ⟨rfl,
    (eval_argument_error_amended ⟨none, true⟩ [(ascii "a", .LONG 1)] [] (ascii "b") .NONE false
      Engine.empty hpre rfl).1,
    (eval_argument_error_amended ⟨none, true⟩ [(ascii "a", .LONG 1)] [] (ascii "b") .NONE false
      Engine.empty hpre rfl).2.2.1⟩

/-- C2 fails as stated: with arguments `a = 1` and `b` of tag `NONE`, on a fragment marked
clear, `eval` fails with `ArgumentError` and leaves `a` bound to `1` in the local namespace,
which was empty before the call. -/
theorem eval_argument_error_counterexample :
    eval ⟨some (fun e => (some .none, e)), true⟩
        [(ascii "a", .LONG 1), (ascii "b", .NONE)] false Engine.empty =
      (.error .ArgumentError, { Engine.empty with locDict := [(ascii "a", .long 1)] }) ∧
    PyDict_GetItemString [(ascii "a", .long 1)] (ascii "a") = some (.long 1) ∧
    PyDict_GetItemString Engine.empty.locDict (ascii "a") = none := by
  refine ⟨rfl, ?_, ?_⟩ <;> decide

/-! ## Release of the fragment by `exec` -/

theorem exec_bytecode_of_compiled (Py_CompileString : Compiler) (code : Bytes)
    (args : List (Bytes × Variant)) (debug : Bool) (e : Engine) (bytecode : ByteCode)
    (hc : compile Py_CompileString code true = .ok bytecode) :
    (exec Py_CompileString code args debug e).result = (eval bytecode args true e).1 ∧
    (exec Py_CompileString code args debug e).bytecode =
      some (match (eval bytecode args true e).1 with
        | .ok _ => destroy bytecode
        | .error _ => bytecode) := by
  unfold exec
  rw [hc]
  rcases hev : eval bytecode args true e with ⟨r, e1⟩
  cases r <;> simp [hev]

/-- C3 fails on the code: `exec` of `1/0` (which compiles and raises) ends with `EvalError`,
and `exec` of `x` with an argument of tag `NONE` ends with `ArgumentError`; in both runs the
local `bytecode` still holds its handle when `exec` is left, so `destroy` has not run and the
assertion of the destructor does not hold. When `eval` returns a value (`x` with `x = 5`) the
handle is null. -/
theorem exec_skips_destroy_on_error :
    ((exec sample_compiler (ascii "1/0") [] false Engine.empty).result = .error .EvalError ∧
      (exec sample_compiler (ascii "1/0") [] false Engine.empty).bytecode.map
        ByteCode.destructor_assert = some false) ∧
    ((exec sample_compiler (ascii "x") [(ascii "x", .NONE)] false Engine.empty).result =
        .error .ArgumentError ∧
      (exec sample_compiler (ascii "x") [(ascii "x", .NONE)] false Engine.empty).bytecode.map
        ByteCode.destructor_assert = some false) ∧
    ((exec sample_compiler (ascii "x") [(ascii "x", .LONG 5)] false Engine.empty).result =
        .ok (.LONG 5) ∧
      (exec sample_compiler (ascii "x") [(ascii "x", .LONG 5)] false Engine.empty).bytecode.map
        ByteCode.destructor_assert = some true) :=
  ⟨⟨rfl, rfl⟩, ⟨rfl, rfl⟩, ⟨rfl, rfl⟩⟩

/-! ## The registry -/

theorem Params.find_setSecond_self (p : Params) (name : Bytes) (value : Option PyObj) :
    (p.setSecond name value).find name = (p.find name).map (fun entry => (entry.1, value)) := by
  induction p with
  | nil => rfl
  | cons kv rest ih =>
    obtain ⟨k, entry⟩ := kv
    by_cases h : k = name
    · simp [Params.setSecond, Params.find, h]
    · simp [Params.setSecond, Params.find, h, ih]

theorem Params.find_setSecond_of_ne (p : Params) (name other : Bytes) (value : Option PyObj)
    (h : name ≠ other) : (p.setSecond name value).find other = p.find other := by
  induction p with
  | nil => rfl
  | cons kv rest ih =>
    obtain ⟨k, entry⟩ := kv
    by_cases h1 : k = name
    · subst h1
      simp [Params.setSecond, Params.find, h]
    · by_cases h2 : k = other
      · subst h2
        simp [Params.setSecond, Params.find, h1]
      · simp [Params.setSecond, Params.find, h1, h2, ih]

/-- C4: when the name the call denotes is registered with callback `cb`, the call
`iointr(name, v)` returns `True` with no exception set, runs `cb` once and no other callback,
`cb` finds `v` stored as the cached value of `name`, every other entry and both namespaces are
untouched, and a following call `iointr(name)` returns `v`. -/
theorem iointr_write_registered (e : Engine) (param v : PyObj) (name : Bytes) (cb : Callback)
    (old : Option PyObj) (hname : pydev_iointr_param param = some name)
    (hreg : e.params.find name = some (cb, old)) :
    (pydev_iointr [param, v] e).ret = Py_True ∧
    (pydev_iointr [param, v] e).err = false ∧
    (pydev_iointr [param, v] e).engine.calls =
      e.calls ++ [⟨cb, (pydev_iointr [param, v] e).engine.params⟩] ∧
    (pydev_iointr [param, v] e).engine.params.find name = some (cb, some v) ∧
    (∀ other : Bytes, other ≠ name →
      (pydev_iointr [param, v] e).engine.params.find other = e.params.find other) ∧
    (pydev_iointr [param, v] e).engine.globDict = e.globDict ∧
    (pydev_iointr [param, v] e).engine.locDict = e.locDict ∧
    (pydev_iointr [param] (pydev_iointr [param, v] e).engine).ret = v ∧
    (pydev_iointr [param] (pydev_iointr [param, v] e).engine).err = false := by
  have hfind : (e.params.setSecond name (some v)).find name = some (cb, some v) := by
    rw [Params.find_setSecond_self, hreg]
    rfl
  have hw : pydev_iointr [param, v] e =
      ⟨Py_True, false, { e with
        params := e.params.setSecond name (some v)
        calls := e.calls ++ [⟨cb, e.params.setSecond name (some v)⟩] }⟩ := by
    simp [pydev_iointr, PyArg_UnpackTuple, hname, pydev_iointr_name, hreg]
  rw [hw]
  refine ⟨rfl, rfl, rfl, hfind, ?_, rfl, rfl, ?_, ?_⟩
  · intro other ho
    exact Params.find_setSecond_of_ne _ _ _ _ (Ne.symm ho)
  · simp [pydev_iointr, PyArg_UnpackTuple, hname, pydev_iointr_name, hfind]
  · simp [pydev_iointr, PyArg_UnpackTuple, hname, pydev_iointr_name, hfind]

/-- Witness: `P1` registered with callback 7, then
`iointr("P1", 42)`. -/
theorem iointr_write_registered_witness :
    (pydev_iointr_param (.unicode (ascii "P1")) = some (ascii "P1") ∧
      (registerIoIntr (ascii "P1") ⟨7⟩ Engine.empty).params.find (ascii "P1") =
        some (⟨7⟩, none)) ∧
    (pydev_iointr [.unicode (ascii "P1")]
      (pydev_iointr [.unicode (ascii "P1"), .long 42]
        (registerIoIntr (ascii "P1") ⟨7⟩ Engine.empty)).engine).ret = .long 42 :=
  ⟨⟨by decide, by decide⟩,
    (iointr_write_registered (registerIoIntr (ascii "P1") ⟨7⟩ Engine.empty)
      (.unicode (ascii "P1")) (.long 42) (ascii "P1") ⟨7⟩ none (by decide) (by decide)).2.2.2.2.2.2.2.1⟩

/-- C5: when the name the call denotes is not registered, the call `iointr(name, v)` returns
`True` with no exception set and leaves the whole state as it was (no entry is created or
changed, no callback runs), and a following call `iointr(name)` returns `None`. -/
theorem iointr_write_unknown (e : Engine) (param v : PyObj) (name : Bytes)
    (hname : pydev_iointr_param param = some name) (hun : e.params.find name = none) :
    pydev_iointr [param, v] e = ⟨Py_True, false, e⟩ ∧
    (pydev_iointr [param] (pydev_iointr [param, v] e).engine).ret = .none ∧
    (pydev_iointr [param] (pydev_iointr [param, v] e).engine).engine = e := by
  have hw : pydev_iointr [param, v] e = ⟨Py_True, false, e⟩ := by
    simp [pydev_iointr, PyArg_UnpackTuple, hname, pydev_iointr_name, hun]
  rw [hw]
  refine ⟨rfl, ?_, ?_⟩ <;>
    simp [pydev_iointr, PyArg_UnpackTuple, hname, pydev_iointr_name, hun]

/-- Witness: `P1` is registered, `UNKNOWN` is written. -/
theorem iointr_write_unknown_witness :
    (pydev_iointr_param (.unicode (ascii "UNKNOWN")) = some (ascii "UNKNOWN") ∧
      (registerIoIntr (ascii "P1") ⟨7⟩ Engine.empty).params.find (ascii "UNKNOWN") = none) ∧
    pydev_iointr [.unicode (ascii "UNKNOWN"), .long 5]
        (registerIoIntr (ascii "P1") ⟨7⟩ Engine.empty) =
      ⟨Py_True, false, registerIoIntr (ascii "P1") ⟨7⟩ Engine.empty⟩ :=
  ⟨⟨by decide, by decide⟩,
    (iointr_write_unknown (registerIoIntr (ascii "P1") ⟨7⟩ Engine.empty)
      (.unicode (ascii "UNKNOWN")) (.long 5) (ascii "UNKNOWN") (by decide) (by decide)).1⟩

/-! ## Cleanup of bound names -/

theorem PyUnicode_FromString_cases (name : Bytes) :
    PyUnicode_FromString name = none ∨ ∃ k, PyUnicode_FromString name = some (.unicode k) := by
  unfold PyUnicode_FromString
  cases utf8_decode (c_str name) with
  | none => exact Or.inl rfl
  | some k => exact Or.inr ⟨k, rfl⟩

theorem PyDict_GetItem_filter_of_none (d : Dict) (p : List Nat × PyObj → Bool) (key : List Nat)
    (h : PyDict_GetItem d key = none) : PyDict_GetItem (d.filter p) key = none := by
  induction d with
  | nil => rfl
  | cons kv rest ih =>
    obtain ⟨k1, v1⟩ := kv
    by_cases h1 : k1 = key
    · simp [PyDict_GetItem, h1] at h
    · have hr : PyDict_GetItem rest key = none := by simpa [PyDict_GetItem, h1] using h
      by_cases hp : p (k1, v1) = true
      · simp [List.filter_cons, hp, PyDict_GetItem, h1, ih hr]
      · simp [List.filter_cons, hp, ih hr]

theorem PyDict_GetItem_filter_self (d : Dict) (key : List Nat) :
    PyDict_GetItem (d.filter (fun kv => decide (kv.1 ≠ key))) key = none := by
  induction d with
  | nil => rfl
  | cons kv rest ih =>
    obtain ⟨k1, v1⟩ := kv
    by_cases h1 : k1 = key
    · simpa [List.filter_cons, h1] using ih
    · simpa [List.filter_cons, h1, PyDict_GetItem] using ih

theorem PyDict_DelItemString_keeps_none (d : Dict) (key name : Bytes)
    (h : PyDict_GetItemString d name = none) :
    PyDict_GetItemString (PyDict_DelItemString d key).1 name = none := by
  unfold PyDict_DelItemString
  rcases PyUnicode_FromString_cases key with hk | ⟨k, hk⟩
  · rw [hk]; exact h
  · rw [hk]
    by_cases hin : (PyDict_GetItem d k).isSome = true
    · simp only [hin, if_true]
      unfold PyDict_GetItemString at h ⊢
      rcases PyUnicode_FromString_cases name with hn | ⟨n, hn⟩
      · rw [hn]
      · rw [hn] at h ⊢
        exact PyDict_GetItem_filter_of_none d _ n h
    · simp only [hin]
      exact h

theorem PyDict_DelItemString_removes (d : Dict) (key : Bytes) :
    PyDict_GetItemString (PyDict_DelItemString d key).1 key = none := by
  unfold PyDict_DelItemString PyDict_GetItemString
  rcases PyUnicode_FromString_cases key with hk | ⟨k, hk⟩
  · rw [hk]
  · rw [hk]
    by_cases hin : (PyDict_GetItem d k).isSome = true
    · simp only [hin, if_true]
      exact PyDict_GetItem_filter_self d k
    · simp only [hin]
      simpa using hin

theorem eval_clear_keeps_none (names : List Bytes) (e : Engine) (name : Bytes)
    (h : PyDict_GetItemString e.locDict name = none) :
    PyDict_GetItemString (eval_clear names e).locDict name = none := by
  induction names generalizing e with
  | nil => exact h
  | cons key rest ih =>
    rw [eval_clear]
    by_cases hl : (PyDict_DelItemString e.locDict key).2 = true
    · simp only [hl, if_true]
      exact ih _ (PyDict_DelItemString_keeps_none e.locDict key name h)
    · simp only [hl]
      by_cases hg : (PyDict_DelItemString e.globDict key).2 = true
      · simp only [hg, if_true]
        exact ih _ h
      · simp only [hg]
        exact ih _ h

theorem PyDict_DelItemString_unchanged (d : Dict) (key : Bytes)
    (h : (PyDict_DelItemString d key).2 = false) : (PyDict_DelItemString d key).1 = d := by
  unfold PyDict_DelItemString at h ⊢
  rcases PyUnicode_FromString_cases key with hk | ⟨k, hk⟩
  · rw [hk]
  · rw [hk] at h ⊢
    by_cases hin : (PyDict_GetItem d k).isSome = true
    · simp [hin] at h
    · simp [hin]

theorem eval_clear_removes (names : List Bytes) (e : Engine) (name : Bytes)
    (hmem : name ∈ names) : PyDict_GetItemString (eval_clear names e).locDict name = none := by
  induction names generalizing e with
  | nil => cases hmem
  | cons key rest ih =>
    rcases List.mem_cons.1 hmem with hk | hr
    · subst hk
      rw [eval_clear]
      have hrem := PyDict_DelItemString_removes e.locDict name
      by_cases hl : (PyDict_DelItemString e.locDict name).2 = true
      · simp only [hl, if_true]
        exact eval_clear_keeps_none rest _ name hrem
      · have hl2 : (PyDict_DelItemString e.locDict name).2 = false := by simpa using hl
        rw [PyDict_DelItemString_unchanged e.locDict name hl2] at hrem
        simp only [hl]
        by_cases hg : (PyDict_DelItemString e.globDict name).2 = true
        · simp only [hg, if_true]
          exact eval_clear_keeps_none rest _ name hrem
        · simp only [hg]
          exact eval_clear_keeps_none rest _ name hrem
    · rw [eval_clear]
      by_cases hl : (PyDict_DelItemString e.locDict key).2 = true
      · simp only [hl, if_true]
        exact ih _ hr
      · simp only [hl]
        by_cases hg : (PyDict_DelItemString e.globDict key).2 = true
        · simp only [hg, if_true]
          exact ih _ hr
        · simp only [hg]
          exact ih _ hr

theorem eval_args_all_converted (args : List (Bytes × Variant))
    (hargs : ∀ kv ∈ args, ∃ o, eval_item kv.2 = .ok (some o)) (locDict : Dict)
    (names : List Bytes) :
    (eval_args args locDict names).1 = none ∧
    (∀ n ∈ names, n ∈ (eval_args args locDict names).2.2) ∧
    (∀ kv ∈ args, kv.1 ∈ (eval_args args locDict names).2.2 ∨
      PyUnicode_FromString kv.1 = none) := by
  induction args generalizing locDict names with
  | nil => exact ⟨rfl, fun n hn => hn, fun kv hkv => by cases hkv⟩
  | cons kv rest ih =>
    obtain ⟨o, ho⟩ := hargs kv (List.mem_cons_self _ _)
    have hrest : ∀ x ∈ rest, ∃ o, eval_item x.2 = .ok (some o) :=
      fun x hx => hargs x (List.mem_cons_of_mem _ hx)
    simp only [eval_args, ho]
    obtain ⟨h1, h2, h3⟩ := ih hrest (PyDict_SetItemString locDict kv.1 o).1
      (if (PyDict_SetItemString locDict kv.1 o).2 = true then names ++ [kv.1] else names)
    refine ⟨h1, ?_, ?_⟩
    · intro n hn
      apply h2
      split
      · exact List.mem_append_left _ hn
      · exact hn
    · intro x hx
      rcases List.mem_cons.1 hx with hx | hx
      · subst hx
        rcases PyUnicode_FromString_cases x.1 with hk | ⟨k, hk⟩
        · exact Or.inr hk
        · left
          apply h2
          simp [PyDict_SetItemString, hk]
      · exact h3 x hx

theorem PyDict_SetItemString_keeps_some (d : Dict) (key name : Bytes) (item : PyObj)
    (h : (PyDict_GetItemString d name).isSome = true) :
    (PyDict_GetItemString (PyDict_SetItemString d key item).1 name).isSome = true := by
  unfold PyDict_SetItemString
  rcases PyUnicode_FromString_cases key with hk | ⟨k, hk⟩
  · rw [hk]; exact h
  · rw [hk]
    unfold PyDict_GetItemString at h ⊢
    rcases PyUnicode_FromString_cases name with hn | ⟨n, hn⟩
    · rw [hn] at h; cases h
    · rw [hn] at h ⊢
      by_cases hkn : k = n
      · subst hkn
        simp [PyDict_GetItem_SetItem_self]
      · simpa [PyDict_GetItem_SetItem_of_ne d k n item hkn] using h

theorem eval_args_keeps_some (args : List (Bytes × Variant)) (locDict : Dict)
    (names : List Bytes) (name : Bytes)
    (h : (PyDict_GetItemString locDict name).isSome = true) :
    (PyDict_GetItemString (eval_args args locDict names).2.1 name).isSome = true := by
  induction args generalizing locDict names with
  | nil => exact h
  | cons kv rest ih =>
    rw [eval_args]
    rcases hi : eval_item kv.2 with err | item
    · exact h
    · cases item with
      | none => exact h
      | some item => exact ih _ _ (PyDict_SetItemString_keeps_some _ _ _ _ h)

theorem eval_args_binds (args : List (Bytes × Variant))
    (hargs : ∀ kv ∈ args, ∃ o, eval_item kv.2 = .ok (some o)) (locDict : Dict)
    (names : List Bytes) :
    ∀ kv ∈ args, PyUnicode_FromString kv.1 ≠ none →
      (PyDict_GetItemString (eval_args args locDict names).2.1 kv.1).isSome = true := by
  induction args generalizing locDict names with
  | nil => intro kv hkv; cases hkv
  | cons a rest ih =>
    obtain ⟨o, ho⟩ := hargs a (List.mem_cons_self _ _)
    have hrest : ∀ x ∈ rest, ∃ o, eval_item x.2 = .ok (some o) :=
      fun x hx => hargs x (List.mem_cons_of_mem _ hx)
    intro kv hkv hdec
    simp only [eval_args, ho]
    rcases List.mem_cons.1 hkv with hx | hx
    · subst hx
      apply eval_args_keeps_some
      rcases PyUnicode_FromString_cases kv.1 with hk | ⟨k, hk⟩
      · exact absurd hk hdec
      · simp [PyDict_SetItemString, PyDict_GetItemString, hk, PyDict_GetItem_SetItem_self]
    · exact ih hrest _ _ kv hx hdec

/-- C6: for a fragment with a non-null handle and arguments that all convert, `eval` ends by
returning a value or by throwing `EvalError`; after it, if the fragment is marked clear, no
argument name is bound in the local namespace; if it is marked do-not-clear, the state is
exactly the one the executed code left, the code having run with every argument name bound in
the local namespace and every other local name as before the call. -/
theorem eval_cleanup_follows_flag (bytecode : ByteCode) (code : Code)
    (args : List (Bytes × Variant)) (debug : Bool) (e : Engine)
    (hcode : bytecode.code = some code)
    (hargs : ∀ kv ∈ args, ∃ o, eval_item kv.2 = .ok (some o)) :
    ((eval bytecode args debug e).1 = .error .EvalError ∨
      ∃ val, (eval bytecode args debug e).1 = .ok val) ∧
    (bytecode.do_clear = true → ∀ kv ∈ args,
      PyDict_GetItemString (eval bytecode args debug e).2.locDict kv.1 = none) ∧
    (bytecode.do_clear = false → ∃ bound : Dict,
      (∀ kv ∈ args, PyUnicode_FromString kv.1 ≠ none →
        (PyDict_GetItemString bound kv.1).isSome = true) ∧
      (∀ key : List Nat, (∀ kv ∈ args, PyUnicode_FromString kv.1 ≠ some (.unicode key)) →
        PyDict_GetItem bound key = PyDict_GetItem e.locDict key) ∧
      (eval bytecode args debug e).2 = (code { e with locDict := bound }).2) := by
  obtain ⟨h1, _, h3⟩ := eval_args_all_converted args hargs e.locDict []
  refine ⟨?_, ?_, ?_⟩
  · simp only [eval, h1, hcode]
    cases (code { e with locDict := (eval_args args e.locDict []).2.1 }).1 with
    | none => exact Or.inl rfl
    | some obj => exact Or.inr ⟨_, rfl⟩
  · intro hclear kv hkv
    have hstate : (eval bytecode args debug e).2 =
        eval_clear (eval_args args e.locDict []).2.2
          (code { e with locDict := (eval_args args e.locDict []).2.1 }).2 := by
      simp only [eval, h1, hcode, ByteCode.clear_pyobjects, hclear, if_true]
      cases (code { e with locDict := (eval_args args e.locDict []).2.1 }).1 <;> rfl
    rw [hstate]
    rcases h3 kv hkv with hin | hnone
    · exact eval_clear_removes _ _ _ hin
    · simp [PyDict_GetItemString, hnone]
  · intro hkeep
    refine ⟨(eval_args args e.locDict []).2.1, eval_args_binds args hargs e.locDict [],
      fun key hkey => eval_args_frame args e.locDict [] key hkey, ?_⟩
    simp only [eval, h1, hcode, ByteCode.clear_pyobjects, hkeep]
    cases (code { e with locDict := (eval_args args e.locDict []).2.1 }).1 <;> rfl

/-- Witness: a fragment marked clear whose code returns the
object bound to `x` and raises when `x` is unbound, run with `x = 5`. -/
theorem eval_cleanup_follows_flag_witness :
    (∀ kv ∈ [(ascii "x", Variant.LONG 5)], ∃ o, eval_item kv.2 = .ok (some o)) ∧
    (∀ kv ∈ [(ascii "x", Variant.LONG 5)],
      PyDict_GetItemString
        (eval ⟨some (fun e => (PyDict_GetItem e.locDict (ascii "x"), e)), true⟩
          [(ascii "x", .LONG 5)] false Engine.empty).2.locDict kv.1 = none) :=
  have hargs : ∀ kv ∈ [(ascii "x", Variant.LONG 5)], ∃ o, eval_item kv.2 = .ok (some o) := by
    intro kv hkv
    simp only [List.mem_singleton] at hkv
    subst hkv
    exact ⟨_, rfl⟩
  ⟨hargs,
    (eval_cleanup_follows_flag ⟨some (fun e => (PyDict_GetItem e.locDict (ascii "x"), e)), true⟩
      (fun e => (PyDict_GetItem e.locDict (ascii "x"), e)) [(ascii "x", .LONG 5)] false
      Engine.empty rfl hargs).2.1 rfl⟩

/-! ## Vector tag inference -/

theorem convert_list_eq (items : List PyObj) (out : Variant) :
    convert (.list items) out =
      match convert_loop items ⟨[], [], [], .NONE⟩ with
      | none => (false, out)
      | some s => (true, convert_result s) := by
  simp [convert, PyUnicode_Check, PyBool_Check, PyLong_Check, PyFloat_Check]

theorem texts_of_plain (items : List PyObj)
    (h : ∀ el ∈ items, element_within plain_text el = true) :
    ∀ x ∈ texts_of items, plain_text x = true := by
  intro x hx
  simp only [texts_of, List.mem_filterMap] at hx
  obtain ⟨el, hel, hx⟩ := hx
  cases el <;> simp at hx
  subst hx
  simpa [element_within] using h _ hel

theorem element_within_ascii_of_plain (el : PyObj)
    (h : element_within plain_text el = true) : element_within ascii_text el = true := by
  cases el <;> simp_all [element_within]
  exact ascii_text_of_plain_text _ h

/-- C7, as amended: for every engine list whose elements are non-boolean integers within the
signed 64-bit range, floats, ASCII text objects without an embedded NUL, or objects of
unsupported types, `convert` succeeds and yields the vector whose tag is fixed by the first
element of an accepted type and whose contents are, in their original order, the elements of
that one type; an empty `VECTOR_DOUBLE` if no element is of an accepted type. -/
theorem convert_list_inference_amended (items : List PyObj) (out : Variant)
    (h : ∀ el ∈ items, element_within plain_text el = true) :
    convert (.list items) out = (true, vector_of_first_accepted items) := by
  rw [convert_list_within items out (fun el hel => element_within_ascii_of_plain el (h el hel))]
  simp only [vector_of_loop, vector_of_first_accepted,
    map_c_str_of_plain_text _ (texts_of_plain items h)]

/-- Witness: the list `[1, "a"]` yields `VECTOR_LONG [1]`,
and the list `[None, "a", 2.5, "b"]` yields the two texts. -/
theorem convert_list_inference_amended_witness :
    convert (.list [.long 1, .unicode (ascii "a")]) .NONE = (true, .VECTOR_LONG [1]) ∧
    convert (.list [.none, .unicode (ascii "a"), .float ⟨5⟩, .unicode (ascii "b")]) .NONE =
      (true, .VECTOR_STRING [ascii "a", ascii "b"]) :=
  ⟨convert_list_inference_amended [.long 1, .unicode (ascii "a")] .NONE (by decide),
    convert_list_inference_amended
      [.none, .unicode (ascii "a"), .float ⟨5⟩, .unicode (ascii "b")] .NONE (by decide)⟩

/-- C7 fails as stated: the one-element list holding the ASCII text `a NUL b` converts to the
`VECTOR_STRING` holding `a`, not to the vector of its elements. -/
theorem convert_list_inference_counterexample :
    element_within ascii_text (.unicode [97, 0, 98]) = true ∧
    convert (.list [.unicode [97, 0, 98]]) .NONE = (true, .VECTOR_STRING [[97]]) ∧
    vector_of_first_accepted [.unicode [97, 0, 98]] = .VECTOR_STRING [[97, 0, 98]] := by
  decide

theorem element_tag_of_unsupported (el : PyObj) (h : unsupported_element el = true) :
    element_tag el = none := by
  cases el <;> simp_all [unsupported_element, element_tag]

theorem element_within_of_unsupported (ok : List Nat → Bool) (el : PyObj)
    (h : unsupported_element el = true) : element_within ok el = true := by
  cases el <;> simp_all [unsupported_element, element_within]

theorem findSome_element_tag_of_unsupported (items : List PyObj)
    (h : ∀ el ∈ items, unsupported_element el = true) :
    items.findSome? element_tag = none := by
  induction items with
  | nil => rfl
  | cons el rest ih =>
    rw [List.findSome?_cons, element_tag_of_unsupported el (h el (List.mem_cons_self _ _))]
    exact ih (fun x hx => h x (List.mem_cons_of_mem _ hx))

/-- C8, as amended: an element of an unsupported type is skipped wherever it stands, so a list
whose first element is of an unsupported type converts as the list without that element; the
result is an empty `VECTOR_DOUBLE` when every element of the list is of an unsupported type. -/
theorem convert_list_unsupported_first_amended (x : PyObj) (rest : List PyObj) (out : Variant)
    (hx : unsupported_element x = true) :
    convert (.list (x :: rest)) out = convert (.list rest) out ∧
    ((∀ el ∈ rest, unsupported_element el = true) →
      convert (.list (x :: rest)) out = (true, .VECTOR_DOUBLE [])) := by
  have hskip : convert (.list (x :: rest)) out = convert (.list rest) out := by
    rw [convert_list_eq, convert_list_eq, convert_loop, convert_element_unsupported _ x hx]
  refine ⟨hskip, fun hall => ?_⟩
  rw [hskip, convert_list_within rest out
    (fun el hel => element_within_of_unsupported _ el (hall el hel))]
  simp [vector_of_loop, findSome_element_tag_of_unsupported rest hall]

/-- Witness: the list `[None, 1]`. -/
theorem convert_list_unsupported_first_amended_witness :
    unsupported_element .none = true ∧
    convert (.list [.none, .long 1]) .NONE = convert (.list [.long 1]) .NONE :=
  ⟨rfl, (convert_list_unsupported_first_amended .none [.long 1] .NONE rfl).1⟩

/-- C8 fails as stated: the list `[None, 1]`, whose first element is of an unsupported type,
converts to `VECTOR_LONG [1]`. -/
theorem convert_list_unsupported_first_counterexample :
    unsupported_element .none = true ∧
    convert (.list [.none, .long 1]) .NONE = (true, .VECTOR_LONG [1]) := by
  decide

/-! ## Scalar probing -/

theorem convert_failure_keeps_out (inp : PyObj) (out : Variant)
    (h : (convert inp out).1 = false) : (convert inp out).2 = out := by
  cases inp with
  | unicode cps =>
    by_cases ha : (cps.all fun c => decide (c < 128)) = true
    · simp [convert, PyUnicode_Check, PyUnicode_AsASCIIString, PyBytes_AsString, ha] at h
    · simp [convert, PyUnicode_Check, PyUnicode_AsASCIIString, ha]
  | bool b => simp [convert, PyUnicode_Check, PyBool_Check] at h
  | long n =>
    by_cases hn : fitsLongLong n = true
    · simp [convert, PyUnicode_Check, PyBool_Check, PyLong_Check, PyLong_AsLongLong, hn] at h
    · simp [convert, PyUnicode_Check, PyBool_Check, PyLong_Check, PyLong_AsLongLong, hn]
  | float d =>
    simp [convert, PyUnicode_Check, PyBool_Check, PyLong_Check, PyFloat_Check,
      PyFloat_AsDouble] at h
  | list items =>
    rw [convert_list_eq] at h ⊢
    cases hl : convert_loop items ⟨[], [], [], .NONE⟩ with
    | none => rfl
    | some s => rw [hl] at h; cases h
  | none => rfl
  | bytes buf => rfl
  | other k => rfl

/-- C9, as amended: for a non-list object, `convert` yields `STRING` with the characters before
the first NUL for an ASCII text object (hence the same characters when the text holds no NUL)
and fails for a text that is not ASCII; `BOOL` for a boolean object; `LONG n` for a non-boolean
integer `n` exactly when `-2^63 <= n <= 2^63 - 1`, and failure outside that range; `DOUBLE` for
a float; failure for `None`, bytes and objects of any other type. On every failure, lists
included, the output value is left unmodified. -/
theorem convert_scalar_amended (out : Variant) :
    (∀ cps, ascii_text cps = true → convert (.unicode cps) out = (true, .STRING (c_str cps))) ∧
    (∀ cps, plain_text cps = true → convert (.unicode cps) out = (true, .STRING cps)) ∧
    (∀ cps, ascii_text cps = false → convert (.unicode cps) out = (false, out)) ∧
    (∀ b, convert (.bool b) out = (true, .BOOL b)) ∧
    (∀ n, fitsLongLong n = true → convert (.long n) out = (true, .LONG n)) ∧
    (∀ n, fitsLongLong n = false → convert (.long n) out = (false, out)) ∧
    (∀ d, convert (.float d) out = (true, .DOUBLE d)) ∧
    convert .none out = (false, out) ∧
    (∀ buf, convert (.bytes buf) out = (false, out)) ∧
    (∀ k, convert (.other k) out = (false, out)) ∧
    (∀ inp, (convert inp out).1 = false → (convert inp out).2 = out) := by
  have hascii : ∀ cps, ascii_text cps = true →
      convert (.unicode cps) out = (true, .STRING (c_str cps)) := by
    intro cps h
    have h1 : (cps.all fun c => decide (c < 128)) = true := h
    simp [convert, PyUnicode_Check, PyUnicode_AsASCIIString, PyBytes_AsString, h1]
  refine ⟨hascii, ?_, ?_, ?_, ?_, ?_, ?_, rfl, fun _ => rfl, fun _ => rfl,
    fun inp => convert_failure_keeps_out inp out⟩
  · intro cps h
    rw [hascii cps (ascii_text_of_plain_text cps h), c_str_of_plain_text cps h]
  · intro cps h
    have h1 : (cps.all fun c => decide (c < 128)) = false := h
    simp [convert, PyUnicode_Check, PyUnicode_AsASCIIString, h1]
  · intro b
    simp [convert, PyUnicode_Check, PyBool_Check, PyObject_IsTrue]
  · intro n h
    simp [convert, PyUnicode_Check, PyBool_Check, PyLong_Check, PyLong_AsLongLong, h]
  · intro n h
    simp [convert, PyUnicode_Check, PyBool_Check, PyLong_Check, PyLong_AsLongLong, h]
  · intro d
    simp [convert, PyUnicode_Check, PyBool_Check, PyLong_Check, PyFloat_Check,
      PyFloat_AsDouble]

/-- Witness: the integers `-1`, `2^63 - 1` and `2^63`, and the
text `ok`, into an output holding `BOOL true`. -/
theorem convert_scalar_amended_witness :
    convert (.long (-1)) (.BOOL true) = (true, .LONG (-1)) ∧
    convert (.long (2 ^ 63 - 1)) (.BOOL true) = (true, .LONG (2 ^ 63 - 1)) ∧
    convert (.long (2 ^ 63)) (.BOOL true) = (false, .BOOL true) ∧
    convert (.unicode (ascii "ok")) (.BOOL true) = (true, .STRING (ascii "ok")) :=
  ⟨(convert_scalar_amended (.BOOL true)).2.2.2.2.1 (-1) (by decide),
    (convert_scalar_amended (.BOOL true)).2.2.2.2.1 (2 ^ 63 - 1) (by decide),
    (convert_scalar_amended (.BOOL true)).2.2.2.2.2.1 (2 ^ 63) (by decide),
    (convert_scalar_amended (.BOOL true)).2.1 (ascii "ok") (by decide)⟩

/-- C9 fails as stated: the ASCII text `a NUL b` converts to the `STRING` holding `a` alone,
not the same characters. -/
theorem convert_scalar_counterexample :
    ascii_text [97, 0, 98] = true ∧
    convert (.unicode [97, 0, 98]) .NONE = (true, .STRING [97]) := by
  decide

/-! ## A failing vector element -/

theorem convert_loop_append (xs ys : List PyObj) (s : ListLocals) :
    convert_loop (xs ++ ys) s = (convert_loop xs s).bind (convert_loop ys) := by
  induction xs generalizing s with
  | nil => rfl
  | cons el rest ih =>
    simp only [List.cons_append, convert_loop]
    cases convert_element s el with
    | none => rfl
    | some s1 => exact ih s1

theorem element_tag_values (el : PyObj) (t : VariantType) (h : element_tag el = some t) :
    t = .VECTOR_LONG ∨ t = .VECTOR_DOUBLE ∨ t = .VECTOR_STRING := by
  cases el <;> simp [element_tag] at h <;> simp [← h]

theorem findSome_element_tag_values (items : List PyObj) (t : VariantType)
    (h : items.findSome? element_tag = some t) :
    t = .VECTOR_LONG ∨ t = .VECTOR_DOUBLE ∨ t = .VECTOR_STRING := by
  obtain ⟨el, _, hel⟩ := List.exists_of_findSome?_eq_some h
  exact element_tag_values el t hel

theorem convert_loop_tag (pre : List PyObj)
    (hpre : ∀ x ∈ pre, element_within ascii_text x = true) :
    ∃ s, convert_loop pre ⟨[], [], [], .NONE⟩ = some s ∧
      s.t = (pre.findSome? element_tag).getD .NONE := by
  refine ⟨_, convert_loop_at_none pre ⟨[], [], [], .NONE⟩ rfl hpre, ?_⟩
  rcases hf : pre.findSome? element_tag with _ | t
  · rfl
  · rcases findSome_element_tag_values pre t hf with h | h | h <;> subst h <;> rfl

theorem convert_element_skips_other_tag (s : ListLocals) (el : PyObj) (t : VariantType)
    (hfail : failing_element el = true) (ht : s.t = t)
    (hv : t = .VECTOR_LONG ∨ t = .VECTOR_DOUBLE ∨ t = .VECTOR_STRING)
    (hne : some t ≠ element_tag el) : convert_element s el = some s := by
  obtain ⟨vd, vl, vs, t0⟩ := s
  simp only at ht
  subst ht
  cases el with
  | long n =>
    rcases hv with h | h | h <;> subst h <;>
      simp_all [element_tag, convert_element, PyLong_Check, PyBool_Check, PyFloat_Check,
        PyUnicode_Check]
  | unicode cps =>
    rcases hv with h | h | h <;> subst h <;>
      simp_all [element_tag, convert_element, PyLong_Check, PyBool_Check, PyFloat_Check,
        PyUnicode_Check]
  | _ => simp [failing_element] at hfail

/-- C10 fails as stated: on the list `[1, 2^63]`, and on the list of a text that is not ASCII
followed by the text `a`, `convert` reports failure and leaves the output as it was, instead
of yielding `VECTOR_LONG [1]` and `VECTOR_STRING ["a"]`. -/
theorem convert_list_failing_element_counterexample :
    convert (.list [.long 1, .long (2 ^ 63)]) .NONE = (false, .NONE) ∧
    convert (.list [.unicode [0xE9], .unicode (ascii "a")]) .NONE = (false, .NONE) := by
  decide

/-! ## Conversion of the returned object -/

/-- C11: for a fragment with a non-null handle and arguments that all convert, when the code
(run on the state with the arguments bound) returns an object on which `convert` reports
failure, `eval` does not throw and returns the `NONE`-tagged value. -/
theorem eval_returns_none_on_mismatch (bytecode : ByteCode) (code : Code)
    (args : List (Bytes × Variant)) (debug : Bool) (e : Engine) (obj : PyObj)
    (hcode : bytecode.code = some code)
    (hargs : ∀ kv ∈ args, ∃ o, eval_item kv.2 = .ok (some o))
    (hrun : (code { e with locDict := (eval_args args e.locDict []).2.1 }).1 = some obj)
    (hconv : (convert obj .NONE).1 = false) :
    (eval bytecode args debug e).1 = .ok .NONE := by
  obtain ⟨h1, _, _⟩ := eval_args_all_converted args hargs e.locDict []
  simp only [eval, h1, hcode, hrun]
  rw [convert_failure_keeps_out obj .NONE hconv]

/-- Witness: code that returns `None`, the integer `2^63`, and a text that is not ASCII. -/
theorem eval_returns_none_on_mismatch_witness :
    (eval ⟨some (fun e => (some .none, e)), true⟩ [(ascii "x", .LONG 5)] false
      Engine.empty).1 = .ok .NONE ∧
    (eval ⟨some (fun e => (some (.long (2 ^ 63)), e)), true⟩ [] false Engine.empty).1 =
      .ok .NONE ∧
    (eval ⟨some (fun e => (some (.unicode [0xE9]), e)), false⟩ [] false Engine.empty).1 =
      .ok .NONE :=
  ⟨eval_returns_none_on_mismatch ⟨some (fun e => (some .none, e)), true⟩
      (fun e => (some .none, e)) [(ascii "x", .LONG 5)] false Engine.empty .none rfl
      (by
        intro kv hkv
        simp only [List.mem_singleton] at hkv
        subst hkv
        exact ⟨_, rfl⟩) rfl (by decide),
    eval_returns_none_on_mismatch ⟨some (fun e => (some (.long (2 ^ 63)), e)), true⟩
      (fun e => (some (.long (2 ^ 63)), e)) [] false Engine.empty (.long (2 ^ 63)) rfl
      (by intro kv hkv; cases hkv) rfl (by decide),
    eval_returns_none_on_mismatch ⟨some (fun e => (some (.unicode [0xE9]), e)), false⟩
      (fun e => (some (.unicode [0xE9]), e)) [] false Engine.empty (.unicode [0xE9]) rfl
      (by intro kv hkv; cases hkv) rfl (by decide)⟩

/-! ## Compilation -/

/-- C12: with the engine's compiler taken as given, and a source text read by it as a C
string: `compile` returns the fragment marked clear when the text parses as an expression;
the fragment marked do-not-clear when it does not and the text followed by a line feed parses
as statements; it throws `SyntaxError` exactly when both parses fail; and when the expression
parse succeeds the result is the same whatever the statement parse would give. -/
theorem compile_mode_selection (Py_CompileString : Compiler) (code : Bytes) (debug : Bool) :
    (∀ bc, Py_CompileString (c_str code) .Py_eval_input = some bc →
      compile Py_CompileString code debug = .ok ⟨some bc, true⟩) ∧
    (Py_CompileString (c_str code) .Py_eval_input = none →
      ∀ bc, Py_CompileString (c_str (code ++ [10])) .Py_file_input = some bc →
        compile Py_CompileString code debug = .ok ⟨some bc, false⟩) ∧
    (compile Py_CompileString code debug = .error .SyntaxError ↔
      Py_CompileString (c_str code) .Py_eval_input = none ∧
        Py_CompileString (c_str (code ++ [10])) .Py_file_input = none) ∧
    (∀ other : Compiler, ∀ bc, Py_CompileString (c_str code) .Py_eval_input = some bc →
      other (c_str code) .Py_eval_input = some bc →
        compile other code debug = compile Py_CompileString code debug) := by
  refine ⟨?_, ?_, ?_, ?_⟩
  · intro bc h
    simp [compile, h]
  · intro h bc hf
    simp [compile, h, hf]
  · constructor
    · intro h
      cases h1 : Py_CompileString (c_str code) .Py_eval_input with
      | some bc => simp [compile, h1] at h
      | none =>
        cases h2 : Py_CompileString (c_str (code ++ [10])) .Py_file_input with
        | some bc => simp [compile, h1, h2] at h
        | none => exact ⟨rfl, rfl⟩
    · rintro ⟨h1, h2⟩
      simp [compile, h1, h2]
  · intro other bc h ho
    simp [compile, h, ho]

/-- Witness: on the sample compiler `x` is compiled in expression mode and marked clear,
`import math` in statement mode and marked do-not-clear, and `def (` is a `SyntaxError`. -/
theorem compile_mode_selection_witness :
    (compile sample_compiler_statements (ascii "x") false).toOption.map ByteCode.do_clear =
      some true ∧
    (compile sample_compiler_statements (ascii "import math") false).toOption.map
      ByteCode.do_clear = some false ∧
    (compile sample_compiler_statements (ascii "def (") false =
        .error .SyntaxError ↔
      sample_compiler_statements (c_str (ascii "def (")) .Py_eval_input = none ∧
        sample_compiler_statements (c_str (ascii "def (" ++ [10])) .Py_file_input = none) :=
  ⟨by
      rw [(compile_mode_selection sample_compiler_statements (ascii "x") false).1 _ rfl]
      rfl,
    by
      rw [(compile_mode_selection sample_compiler_statements (ascii "import math") false).2.1
        rfl _ rfl]
      rfl,
    (compile_mode_selection sample_compiler_statements (ascii "def (") false).2.2.1⟩

/-! ## Reading and registering parameters -/

theorem pydev_iointr_param_unicode (cps : List Nat) (h : ascii_text cps = true) :
    pydev_iointr_param (.unicode cps) = some (c_str cps) := by
  have h1 : (cps.all fun c => decide (c < 128)) = true := h
  simp [pydev_iointr_param, PyUnicode_Check, PyUnicode_AsASCIIString, PyBytes_Check,
    PyBytes_AsString, h1]

theorem pydev_iointr_param_other (param : PyObj)
    (h : ∀ cps, param = .unicode cps → ascii_text cps = false) :
    pydev_iointr_param param = none := by
  cases param with
  | unicode cps =>
    have h1 : (cps.all fun c => decide (c < 128)) = false := h cps rfl
    simp [pydev_iointr_param, PyUnicode_Check, PyUnicode_AsASCIIString, h1]
  | _ => simp [pydev_iointr_param, PyUnicode_Check]

/-- C13, as amended: the one-argument call `iointr(name)` never changes the state (registry,
namespaces) and runs no callback, whatever the argument is. For a text object with an ASCII
encoding it ends with no exception set and returns the object cached under the name it
denotes (the characters before the first NUL) when that name is registered with a cached
value, and `None` otherwise. For any other argument it sets `TypeError`. -/
theorem iointr_read_amended (e : Engine) :
    (∀ param, (pydev_iointr [param] e).engine = e) ∧
    (∀ cps, ascii_text cps = true →
      (pydev_iointr [.unicode cps] e).err = false ∧
      (pydev_iointr [.unicode cps] e).ret =
        (match e.params.find (c_str cps) with
          | some (_, some cached) => cached
          | _ => .none)) ∧
    (∀ param, (∀ cps, param = .unicode cps → ascii_text cps = false) →
      (pydev_iointr [param] e).err = true) := by
  refine ⟨?_, ?_, ?_⟩
  · intro param
    simp only [pydev_iointr, PyArg_UnpackTuple]
    cases pydev_iointr_param param with
    | none => rfl
    | some name =>
      simp only [pydev_iointr_name]
      rcases e.params.find name with _ | ⟨cb, _ | cached⟩ <;> rfl
  · intro cps h
    simp only [pydev_iointr, PyArg_UnpackTuple, pydev_iointr_param_unicode cps h,
      pydev_iointr_name]
    rcases e.params.find (c_str cps) with _ | ⟨cb, _ | cached⟩ <;> exact ⟨rfl, rfl⟩
  · intro param h
    simp [pydev_iointr, PyArg_UnpackTuple, pydev_iointr_param_other param h]

/-- Witness: reading `P1` after `42` was written to it, and reading with the integer `3` as
the name. -/
theorem iointr_read_amended_witness :
    (pydev_iointr [.unicode (ascii "P1")]
      ⟨[], [], [(ascii "P1", ⟨7⟩, some (.long 42))], []⟩).ret = .long 42 ∧
    (pydev_iointr [.long 3] ⟨[], [], [(ascii "P1", ⟨7⟩, some (.long 42))], []⟩).err = true :=
  ⟨((iointr_read_amended ⟨[], [], [(ascii "P1", ⟨7⟩, some (.long 42))], []⟩).2.1
      (ascii "P1") (by decide)).2,
    (iointr_read_amended ⟨[], [], [(ascii "P1", ⟨7⟩, some (.long 42))], []⟩).2.2 (.long 3)
      (by intro cps h; cases h)⟩

/-- C13 fails as stated: called with the integer `3`, or with the text `é`, as the name,
`iointr` sets `TypeError` (and hands back `None`). -/
theorem iointr_read_counterexample :
    pydev_iointr [.long 3] Engine.empty = ⟨.none, true, Engine.empty⟩ ∧
    pydev_iointr [.unicode [0xE9]] Engine.empty = ⟨.none, true, Engine.empty⟩ := by
  decide

theorem Params.find_setFirst_self (p : Params) (name : Bytes) (cb : Callback) :
    ∃ old, (p.setFirst name cb).find name = some (cb, old) := by
  induction p with
  | nil => exact ⟨none, by simp [Params.setFirst, Params.find]⟩
  | cons kv rest ih =>
    obtain ⟨k, entry⟩ := kv
    by_cases h : k = name
    · exact ⟨entry.2, by simp [Params.setFirst, Params.find, h]⟩
    · obtain ⟨old, ho⟩ := ih
      exact ⟨old, by simp [Params.setFirst, Params.find, h, ho]⟩

theorem Params.find_setFirst_of_ne (p : Params) (name other : Bytes) (cb : Callback)
    (h : name ≠ other) : (p.setFirst name cb).find other = p.find other := by
  induction p with
  | nil => simp [Params.setFirst, Params.find, h]
  | cons kv rest ih =>
    obtain ⟨k, entry⟩ := kv
    by_cases h1 : k = name
    · subst h1
      simp [Params.setFirst, Params.find, h]
    · by_cases h2 : k = other
      · subst h2
        simp [Params.setFirst, Params.find, h1]
      · simp [Params.setFirst, Params.find, h1, h2, ih]

/-- C14: after `registerIoIntr(name, cb)` the entry for `name` holds `cb` and no cached value,
so that a one-argument `iointr` call for that name returns `None`; the entry under every other
name, both namespaces and the record of callbacks run are unchanged. -/
theorem registerIoIntr_entry (e : Engine) (name : Bytes) (cb : Callback) :
    (registerIoIntr name cb e).params.find name = some (cb, none) ∧
    (∀ other : Bytes, other ≠ name →
      (registerIoIntr name cb e).params.find other = e.params.find other) ∧
    (registerIoIntr name cb e).globDict = e.globDict ∧
    (registerIoIntr name cb e).locDict = e.locDict ∧
    (registerIoIntr name cb e).calls = e.calls ∧
    (∀ param, pydev_iointr_param param = some name →
      (pydev_iointr [param] (registerIoIntr name cb e)).ret = .none ∧
      (pydev_iointr [param] (registerIoIntr name cb e)).err = false) := by
  have hfind : (registerIoIntr name cb e).params.find name = some (cb, none) := by
    obtain ⟨old, ho⟩ := Params.find_setFirst_self e.params name cb
    simp only [registerIoIntr]
    rw [Params.find_setSecond_self, ho]
    rfl
  refine ⟨hfind, ?_, rfl, rfl, rfl, ?_⟩
  · intro other ho
    simp only [registerIoIntr]
    rw [Params.find_setSecond_of_ne _ _ _ _ (Ne.symm ho),
      Params.find_setFirst_of_ne _ _ _ _ (Ne.symm ho)]
  · intro param hp
    simp [pydev_iointr, PyArg_UnpackTuple, hp, pydev_iointr_name, hfind]

/-- Witness: `P1` holds the cached value `42`; registering `P1` again clears it. -/
theorem registerIoIntr_entry_witness :
    (pydev_iointr [.unicode (ascii "P1")]
      ⟨[], [], [(ascii "P1", ⟨7⟩, some (.long 42))], []⟩).ret = .long 42 ∧
    pydev_iointr_param (.unicode (ascii "P1")) = some (ascii "P1") ∧
    (pydev_iointr [.unicode (ascii "P1")]
      (registerIoIntr (ascii "P1") ⟨8⟩
        ⟨[], [], [(ascii "P1", ⟨7⟩, some (.long 42))], []⟩)).ret = .none :=
  ⟨by decide, by decide,
    ((registerIoIntr_entry ⟨[], [], [(ascii "P1", ⟨7⟩, some (.long 42))], []⟩ (ascii "P1")
      ⟨8⟩).2.2.2.2.2 (.unicode (ascii "P1")) (by decide)).1⟩

/-! ## Booleans in a list -/

theorem convert_element_bool (s : ListLocals) (b : Bool)
    (ht : s.t = .NONE ∨ s.t = .VECTOR_LONG) :
    convert_element s (.bool b) =
      some { s with
        vl := s.vl ++ [if b then 1 else 0, if b then 1 else 0], t := .VECTOR_LONG } := by
  obtain ⟨vd, vl, vs, t⟩ := s
  simp only at ht
  rcases ht with h | h <;> subst h <;> cases b <;>
    simp [convert_element, PyLong_Check, PyBool_Check, PyFloat_Check, PyUnicode_Check,
      PyLong_AsLong, PyObject_IsTrue]

theorem convert_loop_bools (bs : List Bool) (s : ListLocals) (ht : s.t = .VECTOR_LONG) :
    convert_loop (bs.map PyObj.bool) s = some { s with vl := s.vl ++ twice_each bs } := by
  induction bs generalizing s with
  | nil => simp [convert_loop, twice_each]
  | cons b rest ih =>
    rw [List.map_cons, convert_loop, convert_element_bool s b (Or.inr ht)]
    simp only []
    rw [ih _ rfl]
    simp [twice_each, ht]

/-- C16 fails on the code: every boolean of a list is stored twice, once by the branch for
integers (whose type check accepts booleans) and once by the branch for booleans, so a list of
`n` booleans converts to a `VECTOR_LONG` of `2 n` entries; the list `[True]` yields `[1, 1]`
and the list `[True, False]` yields `[1, 1, 0, 0]`. -/
theorem convert_list_of_booleans (bs : List Bool) (out : Variant) :
    convert (.list (bs.map PyObj.bool)) out =
      (true, if bs = [] then .VECTOR_DOUBLE [] else .VECTOR_LONG (twice_each bs)) ∧
    (twice_each bs).length = 2 * bs.length ∧
    convert (.list [.bool true]) out = (true, .VECTOR_LONG [1, 1]) ∧
    convert (.list [.bool true, .bool false]) out = (true, .VECTOR_LONG [1, 1, 0, 0]) := by
  have hgen : ∀ l : List Bool, convert (.list (l.map PyObj.bool)) out =
      (true, if l = [] then .VECTOR_DOUBLE [] else .VECTOR_LONG (twice_each l)) := by
    intro l
    rw [convert_list_eq]
    cases l with
    | nil => simp [convert_loop, convert_result]
    | cons b rest =>
      rw [List.map_cons, convert_loop, convert_element_bool _ b (Or.inl rfl)]
      simp only []
      rw [convert_loop_bools rest _ rfl]
      simp [convert_result, twice_each]
  refine ⟨hgen bs, ?_, hgen [true], hgen [true, false]⟩
  induction bs with
  | nil => rfl
  | cons b rest ih =>
    simp only [twice_each, List.flatMap_cons, List.length_append, List.length_cons,
      List.length_nil] at ih ⊢
    omega

/-! ## The execution lock -/

theorem with_PyGIL_restores {α : Type} (body : Gil → α) (g : Gil) :
    (with_PyGIL body g).2 = { held := g.held, calls := g.calls ++ [.Ensure, .Release] } ∧
    (with_PyGIL body g).1 = body { held := true, calls := g.calls ++ [.Ensure] } := by
  obtain ⟨held, calls⟩ := g
  cases held <;>
    simp [with_PyGIL, PyGIL.construct, PyGIL.destruct, PyGILState_Ensure, PyGILState_Release]

/-- C15, as amended: `compile` and `eval` (and `destroy`) take the execution lock through the
scoped guard on entry and give it back when they are left, whatever the outcome (a value,
`SyntaxError`, `ArgumentError`, `EvalError`): the thread holds the lock afterwards exactly as
it did before, having made one `Ensure` and one `Release` call, and the outcome is the one of
the unguarded body. The script-facing function `iointr` takes no guard and makes no call on
the lock: it leaves the lock as it finds it. -/
theorem lock_discipline_amended (g : Gil) :
    (∀ (Py_CompileString : Compiler) (code : Bytes) (debug : Bool),
      (compile_guarded Py_CompileString code debug g).1 = compile Py_CompileString code debug ∧
      (compile_guarded Py_CompileString code debug g).2.held = g.held ∧
      (compile_guarded Py_CompileString code debug g).2.calls =
        g.calls ++ [.Ensure, .Release]) ∧
    (∀ (bytecode : ByteCode) (args : List (Bytes × Variant)) (debug : Bool) (e : Engine),
      (eval_guarded bytecode args debug e g).1 = eval bytecode args debug e ∧
      (eval_guarded bytecode args debug e g).2.held = g.held ∧
      (eval_guarded bytecode args debug e g).2.calls = g.calls ++ [.Ensure, .Release]) ∧
    (∀ bytecode : ByteCode,
      (destroy_guarded bytecode g).2.held = g.held ∧
      (destroy_guarded bytecode g).2.calls = g.calls ++ [.Ensure, .Release]) ∧
    (PyGILState_Ensure g).2.held = true ∧
    (∀ (args : List PyObj) (e : Engine), (pydev_iointr_guarded args e g).2 = g) := by
  refine ⟨?_, ?_, ?_, rfl, fun _ _ => rfl⟩
  · intro P code debug
    have h := with_PyGIL_restores (fun _ => compile P code debug) g
    exact ⟨h.2, by rw [compile_guarded, h.1], by rw [compile_guarded, h.1]⟩
  · intro bytecode args debug e
    have h := with_PyGIL_restores (fun _ => eval bytecode args debug e) g
    exact ⟨h.2, by rw [eval_guarded, h.1], by rw [eval_guarded, h.1]⟩
  · intro bytecode
    have h := with_PyGIL_restores (fun _ => destroy bytecode) g
    exact ⟨by rw [destroy_guarded, h.1], by rw [destroy_guarded, h.1]⟩

/-- C15 fails as stated: `iointr` constructs no guard; a call of it, here from a thread that
holds the lock (it is executing the script) and has made no call on it so far, makes no call
on the lock, whereas `eval` on a thread that does not hold the lock makes the two calls
`Ensure` and `Release`. -/
theorem lock_discipline_counterexample :
    (pydev_iointr_guarded [.unicode (ascii "P1"), .long 42] Engine.empty ⟨true, []⟩).2 =
      ⟨true, []⟩ ∧
    (eval_guarded ⟨none, true⟩ [] false Engine.empty ⟨false, []⟩).2 =
      ⟨false, [.Ensure, .Release]⟩ := by
  decide

/-! ## Field names in a text (`Util::getMacros`) -/

theorem Util.getMacros_loop_fields (text token : Bytes) (prevChar : Nat)
    (fields : List Bytes) :
    Util.getMacros_loop text token prevChar fields =
      fields ++ Util.getMacros_loop text token prevChar [] := by
  induction text generalizing token prevChar fields with
  | nil =>
    simp only [Util.getMacros_loop]
    split <;> [split; skip] <;> simp
  | cons c rest ih =>
    simp only [Util.getMacros_loop]
    split
    · split
      · exact ih _ _ _
      · exact ih _ _ _
    · split
      · exact ih _ _ _
      · split
        · rw [ih _ _ (if token.length ≤ 4 then fields ++ [token] else fields),
            ih _ _ (if token.length ≤ 4 then [] ++ [token] else [])]
          split <;> simp
        · exact ih _ _ _

theorem Util.getMacros_loop_spec (text : Bytes) :
    (∀ p, Util.getMacros_loop text [] p [] = macro_runs (some p) text) ∧
    (∀ t p, t ≠ [] → isupper p = true →
      Util.getMacros_loop text t p [] =
        (if decide ((t ++ text.takeWhile isupper).length ≤ 4)
              && !is_letter (text.dropWhile isupper).head? then
            [t ++ text.takeWhile isupper]
          else []) ++ macro_runs (some p) text) := by
  induction text with
  | nil =>
    constructor
    · intro p
      simp [Util.getMacros_loop, macro_runs]
    · intro t p ht hp
      simp [Util.getMacros_loop, macro_runs, is_letter, ht]
  | cons c rest ih =>
    obtain ⟨ihA, ihB⟩ := ih
    constructor
    · intro p
      by_cases hc : isupper c = true
      · by_cases hp : isalpha p = true
        · by_cases hup : isupper p = true
          · simp [Util.getMacros_loop, hc, hp, ihA, macro_runs, hup]
          · simp [Util.getMacros_loop, hc, hp, ihA, macro_runs, is_letter, hup]
        · have hup : isupper p = false := by
            cases h : isupper p
            · rfl
            · simp [isalpha, h] at hp
          have hp2 : isalpha p = false := by simpa using hp
          simp only [Util.getMacros_loop, hc, hp2, macro_runs, is_letter, hup, if_true,
            Bool.not_false, Bool.true_or, Bool.and_true, List.nil_append, Bool.and_self,
            List.isEmpty_nil, Bool.not_true, Bool.or_false]
          rw [ihB [c] c (by simp) hc]
          simp [is_letter]
      · have hc2 : isupper c = false := by simpa using hc
        by_cases hl : islower c = true
        · simp [Util.getMacros_loop, hc2, hl, ihA, macro_runs]
        · simp [Util.getMacros_loop, hc2, hl, ihA, macro_runs]
    · intro t p ht hp
      have hte : t.isEmpty = false := by
        cases t with
        | nil => exact absurd rfl ht
        | cons _ _ => rfl
      by_cases hc : isupper c = true
      · simp only [Util.getMacros_loop, hc, hte, if_true, Bool.not_false, Bool.or_true]
        rw [ihB (t ++ [c]) c (by simp) hc]
        simp [macro_runs, hc, hp, List.takeWhile_cons, List.dropWhile_cons]
      · have hc2 : isupper c = false := by simpa using hc
        by_cases hl : islower c = true
        · simp [Util.getMacros_loop, hc2, hl, ihA, macro_runs, List.takeWhile_cons,
            List.dropWhile_cons, is_letter, isalpha]
        · have hl2 : islower c = false := by simpa using hl
          have hcode : Util.getMacros_loop (c :: rest) t p [] =
              Util.getMacros_loop rest [] c (if t.length ≤ 4 then [t] else []) := by
            simp [Util.getMacros_loop, hc2, hl2, hte]
          rw [hcode, Util.getMacros_loop_fields, ihA c]
          simp [macro_runs, hc2, hl2, List.takeWhile_cons, List.dropWhile_cons, is_letter,
            isalpha]

theorem macro_runs_start (text : Bytes) : macro_runs none text = macro_runs (some 0) text := by
  cases text with
  | nil => rfl
  | cons c rest => simp [macro_runs, is_letter, isalpha, isupper, islower]

/-- C19: for every ASCII text, `getMacros` returns, in order of occurrence and with
repetitions kept, exactly the maximal runs of upper-case letters that have 1 to 4 letters, are
preceded by the start of the text or a non-letter, and are followed by the end of the text or
a non-letter. -/
theorem getMacros_lists_short_runs (text : Bytes) (h : ascii_text text = true) :
    Util.getMacros text = macro_runs none text := by
  rw [macro_runs_start, Util.getMacros]
  exact (Util.getMacros_loop_spec text).1 0

/-- Witness: the text `VAL+aB1 NAME%TOOLONG` gives `VAL` and `NAME`. -/
theorem getMacros_lists_short_runs_witness :
    Util.getMacros (ascii "VAL+aB1 NAME%TOOLONG") = [ascii "VAL", ascii "NAME"] ∧
    macro_runs none (ascii "VAL+aB1 NAME%TOOLONG") = [ascii "VAL", ascii "NAME"] :=
  ⟨(getMacros_lists_short_runs (ascii "VAL+aB1 NAME%TOOLONG") (by decide)).trans (by decide),
    by decide⟩

/-! ## Lemmas on `std::string` operations at the end of a left part -/

theorem string_compare_eq_append (em rest : Bytes) (len : Nat) (str : Bytes) :
    string_compare_eq (em ++ rest) em.length len str = decide (rest.take len = str) := by
  simp [string_compare_eq]

theorem string_replace_append (em rest : Bytes) (len : Nat) (str : Bytes) :
    string_replace (em ++ rest) em.length len str = (em ++ str) ++ rest.drop len := by
  simp [string_replace, List.drop_append]

theorem string_at_append (em rest : Bytes) (i : Nat) :
    string_at (em ++ rest) (em.length + i) = rest.getD i 0 := by
  simp [string_at, List.getD_eq_getElem?_getD, List.getElem?_append_right]

/-! ## Escaping (`Util::escape`) -/

theorem Util.replace_field_escapables (em rest : Bytes) (c : Nat) :
    Util.replace_field (em ++ c :: rest) em.length Util.escapables =
      if c = 10 then some ([10], [92, 110])
      else if c = 13 then some ([13], [92, 114])
      else if c = 39 then some ([39], [92, 39])
      else none := by
  simp only [Util.escapables, Util.replace_field, string_compare_eq_append]
  by_cases h1 : c = 10
  · simp [h1]
  · by_cases h2 : c = 13
    · simp [h2]
    · by_cases h3 : c = 39
      · simp [h3]
      · simp [h1, h2, h3]

theorem Util.replace_loop_escapables (fuel : Nat) (em rest : Bytes)
    (h : rest.length < fuel) :
    Util.replace_loop Util.escapables fuel (em ++ rest) em.length =
      some (em ++ rest.flatMap escape_char) := by
  induction fuel generalizing em rest with
  | zero => omega
  | succ n ih =>
    cases rest with
    | nil => simp [Util.replace_loop]
    | cons c tl =>
      have hlen : tl.length < n := by simpa using h
      have hpos : em.length < (em ++ c :: tl).length := by simp
      rw [Util.replace_loop, if_pos hpos, Util.replace_field_escapables]
      by_cases h1 : c = 10
      · subst h1
        have := ih (em ++ [92, 110]) tl hlen
        simp only [List.length_append, List.length_cons, List.length_nil] at this
        simpa [string_replace_append, escape_char] using this
      · by_cases h2 : c = 13
        · subst h2
          have := ih (em ++ [92, 114]) tl hlen
          simp only [List.length_append, List.length_cons, List.length_nil] at this
          simpa [string_replace_append, escape_char] using this
        · by_cases h3 : c = 39
          · subst h3
            have := ih (em ++ [92, 39]) tl hlen
            simp only [List.length_append, List.length_cons, List.length_nil] at this
            simpa [string_replace_append, escape_char] using this
          · have := ih (em ++ [c]) tl hlen
            simp only [List.length_append, List.length_cons, List.length_nil] at this
            simpa [h1, h2, h3, escape_char] using this

/-- C18: for every text, `escape` returns the concatenation, in order, of the images of its
characters under the map that sends line feed to backslash `n`, carriage return to backslash
`r`, the single quote to backslash and single quote, and every other character to itself;
the result holds no line feed and no carriage return, and its length is the length of the text
plus the number of those three characters in it. -/
theorem escape_is_character_wise (text : Bytes) :
    Util.escape text = some (text.flatMap escape_char) ∧
    (∀ c ∈ text.flatMap escape_char, c ≠ 10 ∧ c ≠ 13) ∧
    (text.flatMap escape_char).length =
      text.length + text.countP (fun c => decide (c = 10 ∨ c = 13 ∨ c = 39)) := by
  refine ⟨?_, ?_, ?_⟩
  · have := Util.replace_loop_escapables (text.length + 1) [] text (by omega)
    simpa [Util.escape, Util.replace] using this
  · intro c hc
    simp only [List.mem_flatMap] at hc
    obtain ⟨a, _, hca⟩ := hc
    unfold escape_char at hca
    split at hca
    · simp at hca; rcases hca with h | h <;> subst h <;> decide
    · split at hca
      · simp at hca; rcases hca with h | h <;> subst h <;> decide
      · split at hca
        · simp at hca; rcases hca with h | h <;> subst h <;> decide
        · simp at hca
          subst hca
          constructor <;> assumption
  · induction text with
    | nil => rfl
    | cons c rest ih =>
      rw [List.flatMap_cons, List.length_append, ih, List.countP_cons, List.length_cons]
      unfold escape_char
      by_cases h1 : c = 10
      · simp [h1]; omega
      · by_cases h2 : c = 13
        · simp [h2]; omega
        · by_cases h3 : c = 39
          · simp [h3]; omega
          · simp [h1, h2, h3]; omega

/-! ## Replacement of a field name (`Util::replaceMacro`) -/

theorem macro_scan_skip (search replacement : Bytes) (xs rest : Bytes) (before : Option Nat) :
    macro_scan search replacement before xs.length (xs ++ rest) =
      macro_scan search replacement
        (match xs.getLast? with
          | some x => some x
          | none => before) 0 rest := by
  induction xs generalizing before with
  | nil => simp
  | cons x tl ih =>
    have hstep : macro_scan search replacement before (x :: tl).length ((x :: tl) ++ rest) =
        macro_scan search replacement (some x) tl.length (tl ++ rest) := by
      simp only [List.length_cons, List.cons_append, macro_scan]
      rfl
    rw [hstep, ih (some x)]
    cases tl with
    | nil => simp
    | cons y ys =>
      have hne : (y :: ys).getLast? = some ((y :: ys).getLast (by simp)) :=
        List.getLast?_eq_getLast _ _
      rw [List.getLast?_cons_cons, hne]

theorem char_before_eq (em rest : Bytes) (replaced : Bool) :
    (!isalnum (if (decide (em.length = 0) || replaced) = true then 46
        else string_at (em ++ rest) (em.length - 1))) =
      (replaced || boundary em.getLast?) := by
  rcases List.eq_nil_or_concat em with h | ⟨em1, x, h⟩
  · subst h
    cases replaced <;> simp [boundary] <;> decide
  · subst h
    cases replaced
    · have hat : string_at (em1 ++ x :: rest) em1.length = x := by
        have := string_at_append em1 (x :: rest) 0
        simpa using this
      simp [boundary, hat]
    · simp
      decide

theorem char_after_eq (em rest : Bytes) (k : Nat) :
    (!isalnum (if em.length + k ≥ (em ++ rest).length then 46
        else string_at (em ++ rest) (em.length + k))) =
      boundary (rest.drop k).head? := by
  by_cases h : rest.length ≤ k
  · have h1 : em.length + k ≥ (em ++ rest).length := by simp; omega
    rw [if_pos h1, List.drop_of_length_le h]
    decide
  · have h1 : ¬ em.length + k ≥ (em ++ rest).length := by simp; omega
    have h2 : k < rest.length := by omega
    rw [if_neg h1, string_at_append]
    simp [boundary, List.head?_drop, List.getD_eq_getElem?_getD, List.getElem?_eq_getElem h2]

theorem Util.replaceMacro_loop_step (search replacement : Bytes) (n : Nat) (em : Bytes)
    (c : Nat) (tl : Bytes) (replaced : Bool) :
    Util.replaceMacro_loop search replacement (n + 1) (em ++ c :: tl) em.length replaced =
      if (decide ((c :: tl).take search.length = search) &&
          ((replaced || boundary em.getLast?) &&
            boundary ((c :: tl).drop search.length).head?)) = true then
        Util.replaceMacro_loop search replacement n
          ((em ++ replacement) ++ (c :: tl).drop search.length) (em ++ replacement).length true
      else if decide ((c :: tl).take (search.length + 2) = [37] ++ search ++ [37]) = true then
        Util.replaceMacro_loop search replacement n
          ((em ++ replacement) ++ (c :: tl).drop (search.length + 2))
          (em ++ replacement).length true
      else
        Util.replaceMacro_loop search replacement n ((em ++ [c]) ++ tl) (em ++ [c]).length
          false := by
  have hpos : em.length < (em ++ c :: tl).length := by simp
  have hlen : ([37] ++ search ++ [37]).length = search.length + 2 := by simp
  rw [Util.replaceMacro_loop, if_pos hpos, string_compare_eq_append, string_compare_eq_append,
    char_before_eq, char_after_eq, string_replace_append, string_replace_append, hlen]
  simp only [List.length_append, List.length_cons, List.length_nil, List.append_assoc,
    List.singleton_append]

theorem take_eq_gives_head (search rest : Bytes) (hs : search ≠ [])
    (h : rest.take search.length = search) : rest.head? = search.head? := by
  cases search with
  | nil => exact absurd rfl hs
  | cons s0 s1 =>
    cases rest with
    | nil => simp at h
    | cons r0 r1 =>
      simp only [List.length_cons, List.take_succ_cons, List.cons.injEq] at h
      simp [h.1]

theorem no_bare_occurrence_after (search rest : Bytes) (hs : search ≠ []) (a : Nat)
    (ha : search.head? = some a) (halnum : isalnum a = true)
    (hb : boundary rest.head? = true) :
    decide (rest.take search.length = search) = false := by
  rw [decide_eq_false_iff_not]
  intro hm
  have hh := take_eq_gives_head search rest hs hm
  rw [hh, ha] at hb
  simp [boundary, halnum] at hb

theorem Util.replaceMacro_loop_spec (search replacement : Bytes) (hs : search ≠ [])
    (hends : ∀ a b, search.head? = some a → search.getLast? = some b →
      isalnum a = true ∨ isalnum b = false) (fuel : Nat) :
    ∀ (em rest : Bytes) (replaced : Bool) (before : Option Nat), rest.length < fuel →
      (replaced = false → before = em.getLast?) →
      (replaced = true →
        boundary before = true ∨ decide (rest.take search.length = search) = false) →
      Util.replaceMacro_loop search replacement fuel (em ++ rest) em.length replaced =
        some (em ++ macro_scan search replacement before 0 rest) := by
  induction fuel with
  | zero => intro em rest replaced before h; omega
  | succ n ih =>
    intro em rest replaced before hfuel hkeep hrepl
    cases rest with
    | nil => simp [Util.replaceMacro_loop, macro_scan]
    | cons c tl =>
      have hslen : 0 < search.length := List.length_pos.2 hs
      -- the test for a bare occurrence is the one of the rule
      have hbare : (decide ((c :: tl).take search.length = search) &&
          ((replaced || boundary em.getLast?) &&
            boundary ((c :: tl).drop search.length).head?)) =
          (decide ((c :: tl).take search.length = search) && boundary before &&
            boundary ((c :: tl).drop search.length).head?) := by
        cases hr : replaced with
        | false =>
          rw [hkeep hr]
          simp [Bool.and_assoc]
        | true =>
          rcases hrepl hr with hb | hno
          · simp [hb, Bool.and_assoc]
          · simp [hno]
      rw [Util.replaceMacro_loop_step, hbare]
      by_cases h1 : (decide ((c :: tl).take search.length = search) && boundary before &&
          boundary ((c :: tl).drop search.length).head?) = true
      · rw [if_pos h1]
        have hcond := h1
        simp only [Bool.and_eq_true, decide_eq_true_eq] at h1
        obtain ⟨⟨hm, hbefore⟩, hafter⟩ := h1
        have hsplit : c :: tl = search ++ (c :: tl).drop search.length := by
          conv_lhs => rw [← List.take_append_drop search.length (c :: tl), hm]
        have hlt : ((c :: tl).drop search.length).length < n := by
          simp only [List.length_drop, List.length_cons] at hfuel ⊢
          omega
        -- after the occurrence: its last character is a boundary, or no occurrence follows
        have hnext : boundary search.getLast? = true ∨
            decide (((c :: tl).drop search.length).take search.length = search) = false := by
          obtain ⟨a, ha⟩ : ∃ a, search.head? = some a := by
            cases search with
            | nil => exact absurd rfl hs
            | cons s0 s1 => exact ⟨s0, rfl⟩
          have hb : search.getLast? = some (search.getLast hs) :=
            List.getLast?_eq_getLast _ _
          rcases hends a (search.getLast hs) ha hb with h | h
          · exact Or.inr (no_bare_occurrence_after search _ hs a ha h hafter)
          · left
            rw [hb]
            simp [boundary, h]
        rw [ih (em ++ replacement) ((c :: tl).drop search.length) true search.getLast? hlt
          (by intro h; cases h) (fun _ => hnext)]
        -- the rule passes over the rest of the occurrence
        have hscan : macro_scan search replacement before 0 (c :: tl) =
            replacement ++ macro_scan search replacement search.getLast? 0
              ((c :: tl).drop search.length) := by
          rw [macro_scan, if_pos hcond]
          cases search with
          | nil => exact absurd rfl hs
          | cons s0 s1 =>
            have hc : c = s0 ∧ tl = s1 ++ (c :: tl).drop (s0 :: s1).length := by
              have := hsplit
              simp only [List.cons_append, List.cons.injEq] at this
              exact this
            have h2 := macro_scan_skip (s0 :: s1) replacement s1
              ((c :: tl).drop (s0 :: s1).length) (some c)
            rw [← hc.2] at h2
            simp only [List.length_cons, Nat.add_sub_cancel]
            rw [h2]
            cases s1 with
            | nil => simp [hc.1]
            | cons y ys =>
              have hne : (y :: ys).getLast? = some ((y :: ys).getLast (by simp)) :=
                List.getLast?_eq_getLast _ _
              rw [List.getLast?_cons_cons, hne]
              rfl
        rw [hscan]
        simp
      · rw [if_neg h1]
        by_cases h2 : decide ((c :: tl).take (search.length + 2) = [37] ++ search ++ [37]) = true
        · rw [if_pos h2]
          simp only [decide_eq_true_eq] at h2
          have hsplit : c :: tl = ([37] ++ search ++ [37]) ++ (c :: tl).drop (search.length + 2) := by
            conv_lhs => rw [← List.take_append_drop (search.length + 2) (c :: tl), h2]
          have hlt : ((c :: tl).drop (search.length + 2)).length < n := by
            simp only [List.length_drop, List.length_cons] at hfuel ⊢
            omega
          rw [ih (em ++ replacement) ((c :: tl).drop (search.length + 2)) true (some 37) hlt
            (by intro h; cases h) (fun _ => Or.inl (by decide))]
          have hscan : macro_scan search replacement before 0 (c :: tl) =
              replacement ++ macro_scan search replacement (some 37) 0
                ((c :: tl).drop (search.length + 2)) := by
            have h2d : decide ((c :: tl).take (search.length + 2) = [37] ++ search ++ [37])
                = true := by simp [h2]
            rw [macro_scan, if_neg h1, if_pos h2d]
            have hc : tl = (search ++ [37]) ++ (c :: tl).drop (search.length + 2) := by
              have := hsplit
              simp only [List.singleton_append, List.cons_append, List.cons.injEq,
                List.append_assoc] at this
              simpa using this.2
            have h3 := macro_scan_skip search replacement (search ++ [37])
              ((c :: tl).drop (search.length + 2)) (some c)
            rw [← hc] at h3
            simp only [List.length_append, List.length_cons, List.length_nil] at h3
            rw [h3]
            simp
          rw [hscan]
          simp
        · rw [if_neg h2]
          have hlt : tl.length < n := by simpa using hfuel
          rw [ih (em ++ [c]) tl false (some c) hlt (by intro _; simp)
            (by intro h; cases h)]
          have hscan : macro_scan search replacement before 0 (c :: tl) =
              c :: macro_scan search replacement (some c) 0 tl := by
            rw [macro_scan, if_neg h1, if_neg h2]
          rw [hscan]
          simp

/-- C17, as amended: for every text, every replacement and every non-empty search other than
those that both begin with a non-alphanumeric character and end with an alphanumeric one,
`replaceMacro` returns the text obtained by reading the input text once from the left: where a
bare occurrence of the search starts whose neighbours in the input text, the character before
it and the character after it, are each absent or not alphanumeric, the occurrence is
replaced; otherwise, where an occurrence written between two `%` starts, it is replaced
together with the two `%`; otherwise the character is kept. An occurrence next to an
alphanumeric character is thus left unchanged. -/
theorem replaceMacro_amended (text search replacement : Bytes) (hs : search ≠ [])
    (hends : ∀ a b, search.head? = some a → search.getLast? = some b →
      isalnum a = true ∨ isalnum b = false) :
    Util.replaceMacro text search replacement =
      some (macro_scan search replacement none 0 text) := by
  have h := Util.replaceMacro_loop_spec search replacement hs hends (text.length + 1) [] text
    false none (by omega) (fun _ => rfl) (by intro h; cases h)
  simpa [Util.replaceMacro] using h

/-- Witness: `VALUE VAL` with `VAL` replaced by `1` gives `VALUE 1`; in `x%VAL%y+VAL` both the
delimited and the bare occurrence are replaced; and with the search `_A_`, which begins and
ends with a non-alphanumeric character, `_A__A_` becomes `11`. -/
theorem replaceMacro_amended_witness :
    Util.replaceMacro (ascii "VALUE VAL") (ascii "VAL") (ascii "1") = some (ascii "VALUE 1") ∧
    Util.replaceMacro (ascii "x%VAL%y+VAL") (ascii "VAL") (ascii "12") =
      some (ascii "x12y+12") ∧
    Util.replaceMacro (ascii "_A__A_") (ascii "_A_") (ascii "1") = some (ascii "11") :=
  ⟨(replaceMacro_amended (ascii "VALUE VAL") (ascii "VAL") (ascii "1") (by decide)
      (by
        intro a b ha hb
        have : a = 86 := by simpa [ascii] using ha.symm
        subst this
        exact Or.inl (by decide))).trans (by decide),
    (replaceMacro_amended (ascii "x%VAL%y+VAL") (ascii "VAL") (ascii "12") (by decide)
      (by
        intro a b ha hb
        have : a = 86 := by simpa [ascii] using ha.symm
        subst this
        exact Or.inl (by decide))).trans (by decide),
    (replaceMacro_amended (ascii "_A__A_") (ascii "_A_") (ascii "1") (by decide)
      (by
        intro a b ha hb
        have : b = 95 := by simpa [ascii] using hb.symm
        subst this
        exact Or.inr (by decide))).trans (by decide)⟩

/-- C17 fails as stated: with the search `_A` and the replacement `1`, the text `_A_A` becomes
`11`: the second occurrence is replaced although the character before it in the input text is
the letter `A`; read by the rule on the input text, the result would be `1_A`. -/
theorem replaceMacro_counterexample :
    Util.replaceMacro (ascii "_A_A") (ascii "_A") (ascii "1") = some (ascii "11") ∧
    macro_scan (ascii "_A") (ascii "1") none 0 (ascii "_A_A") = ascii "1_A" ∧
    (ascii "_A_A").drop 1 = ascii "A_A" ∧ isalnum 65 = true := by
  decide

/-! ## A failing vector element, after any elements -/

theorem accepted_tag_values (el : PyObj) (t : VariantType) (h : accepted_tag el = some t) :
    t = .VECTOR_LONG ∨ t = .VECTOR_DOUBLE ∨ t = .VECTOR_STRING := by
  cases el <;> simp [accepted_tag] at h <;> simp [← h]

theorem convert_element_tag (s : ListLocals) (el : PyObj) (hs : loop_tag s.t = true) :
    convert_element s el = none ∨
      ∃ s1, convert_element s el = some s1 ∧
        s1.t = (if s.t = .NONE then (accepted_tag el).getD .NONE else s.t) := by
  obtain ⟨vd, vl, vs, t⟩ := s
  simp only at hs
  cases el with
  | long n =>
    by_cases hn : fitsLongLong n = true
    · right
      refine ⟨_, convert_element_long _ n hn, ?_⟩
      cases t <;> simp [loop_tag] at hs <;> simp [accepted_tag]
    · have hn2 : fitsLongLong n = false := by simpa using hn
      cases t <;> simp [loop_tag] at hs
      · exact Or.inl (convert_element_long_fails _ n hn2 (Or.inl rfl))
      · exact Or.inl (convert_element_long_fails _ n hn2 (Or.inr rfl))
      · right
        exact ⟨⟨vd, vl, vs, .VECTOR_DOUBLE⟩, by
          simp [convert_element, PyLong_Check, PyBool_Check, PyFloat_Check, PyUnicode_Check],
          by simp⟩
      · right
        exact ⟨⟨vd, vl, vs, .VECTOR_STRING⟩, by
          simp [convert_element, PyLong_Check, PyBool_Check, PyFloat_Check, PyUnicode_Check],
          by simp⟩
  | bool b =>
    right
    cases t <;> simp [loop_tag] at hs
    · exact ⟨_, convert_element_bool _ b (Or.inl rfl), by simp [accepted_tag]⟩
    · exact ⟨_, convert_element_bool _ b (Or.inr rfl), by simp⟩
    · exact ⟨⟨vd, vl, vs, .VECTOR_DOUBLE⟩, by
        simp [convert_element, PyLong_Check, PyBool_Check, PyFloat_Check, PyUnicode_Check],
        by simp⟩
    · exact ⟨⟨vd, vl, vs, .VECTOR_STRING⟩, by
        simp [convert_element, PyLong_Check, PyBool_Check, PyFloat_Check, PyUnicode_Check],
        by simp⟩
  | float d =>
    right
    refine ⟨_, convert_element_float _ d, ?_⟩
    cases t <;> simp [loop_tag] at hs <;> simp [accepted_tag]
  | unicode cps =>
    by_cases hc : ascii_text cps = true
    · right
      refine ⟨_, convert_element_unicode _ cps hc, ?_⟩
      cases t <;> simp [loop_tag] at hs <;> simp [accepted_tag]
    · have hc2 : ascii_text cps = false := by simpa using hc
      cases t <;> simp [loop_tag] at hs
      · exact Or.inl (convert_element_unicode_fails _ cps hc2 (Or.inl rfl))
      · right
        exact ⟨⟨vd, vl, vs, .VECTOR_LONG⟩, by
          simp [convert_element, PyLong_Check, PyBool_Check, PyFloat_Check, PyUnicode_Check],
          by simp⟩
      · right
        exact ⟨⟨vd, vl, vs, .VECTOR_DOUBLE⟩, by
          simp [convert_element, PyLong_Check, PyBool_Check, PyFloat_Check, PyUnicode_Check],
          by simp⟩
      · exact Or.inl (convert_element_unicode_fails _ cps hc2 (Or.inr rfl))
  | none =>
    right
    exact ⟨_, convert_element_unsupported _ .none rfl, by
      cases t <;> simp [loop_tag] at hs <;> simp [accepted_tag]⟩
  | bytes buf =>
    right
    exact ⟨_, convert_element_unsupported _ (.bytes buf) rfl, by
      cases t <;> simp [loop_tag] at hs <;> simp [accepted_tag]⟩
  | list xs =>
    right
    exact ⟨_, convert_element_unsupported _ (.list xs) rfl, by
      cases t <;> simp [loop_tag] at hs <;> simp [accepted_tag]⟩
  | other k =>
    right
    exact ⟨_, convert_element_unsupported _ (.other k) rfl, by
      cases t <;> simp [loop_tag] at hs <;> simp [accepted_tag]⟩

theorem convert_loop_tag_any (pre : List PyObj) (s : ListLocals)
    (hs : loop_tag s.t = true) :
    convert_loop pre s = none ∨
      ∃ s1, convert_loop pre s = some s1 ∧
        s1.t = (if s.t = .NONE then tag_fixed_by pre else s.t) := by
  induction pre generalizing s with
  | nil =>
    right
    refine ⟨s, rfl, ?_⟩
    by_cases h : s.t = .NONE
    · simp [h, tag_fixed_by]
    · simp [h]
  | cons el rest ih =>
    rcases convert_element_tag s el hs with h | ⟨s1, h1, ht1⟩
    · left
      simp [convert_loop, h]
    · have hs1 : loop_tag s1.t = true := by
        rw [ht1]
        by_cases hsn : s.t = .NONE
        · rw [if_pos hsn]
          cases ha : accepted_tag el with
          | none => rfl
          | some k =>
            rcases accepted_tag_values el k ha with hk | hk | hk <;> subst hk <;> rfl
        · rw [if_neg hsn]
          exact hs
      rcases ih s1 hs1 with h2 | ⟨s2, h2, ht2⟩
      · left
        simp [convert_loop, h1, h2]
      · right
        refine ⟨s2, by simp [convert_loop, h1, h2], ?_⟩
        rw [ht2, ht1]
        by_cases hsn : s.t = .NONE
        · simp only [hsn, if_true]
          cases ha : accepted_tag el with
          | none => simp [tag_fixed_by, List.findSome?_cons, ha]
          | some k =>
            have hk : k ≠ .NONE := by
              rcases accepted_tag_values el k ha with hk | hk | hk <;> subst hk <;> decide
            simp [tag_fixed_by, List.findSome?_cons, ha, hk]
        · simp [hsn]

theorem tag_fixed_by_values (pre : List PyObj) (h : tag_fixed_by pre ≠ .NONE) :
    tag_fixed_by pre = .VECTOR_LONG ∨ tag_fixed_by pre = .VECTOR_DOUBLE ∨
      tag_fixed_by pre = .VECTOR_STRING := by
  unfold tag_fixed_by at h ⊢
  cases hf : pre.findSome? accepted_tag with
  | none => rw [hf] at h; exact absurd rfl h
  | some k =>
    obtain ⟨el, _, hel⟩ := List.exists_of_findSome?_eq_some hf
    simpa using accepted_tag_values el k hel

/-- C10, as amended: a vector element whose extraction fails (an integer outside the signed
64-bit range, a text that is not ASCII) is not skipped. For every list and every such element
of it: when the vector tag is still unset after the elements before it, or is the tag of the
element's own type, `convert` reports failure with the output unmodified; when the tag was
fixed by an earlier element of another type, the element is passed over without extraction,
so that `convert` gives what it gives on the list without that element. The tag after the
elements before it is the one of the first of them that is an integer, a boolean, a float or a
text. -/
theorem convert_list_failing_element_amended (pre post : List PyObj) (el : PyObj)
    (out : Variant) (hel : failing_element el = true) :
    (tag_fixed_by pre = .NONE ∨ some (tag_fixed_by pre) = element_tag el →
      convert (.list (pre ++ el :: post)) out = (false, out)) ∧
    (tag_fixed_by pre ≠ .NONE ∧ some (tag_fixed_by pre) ≠ element_tag el →
      convert (.list (pre ++ el :: post)) out = convert (.list (pre ++ post)) out) := by
  rcases convert_loop_tag_any pre ⟨[], [], [], .NONE⟩ rfl with hnone | ⟨s, hs, hst⟩
  · constructor
    · intro _
      rw [convert_list_eq, convert_loop_append, hnone]
      rfl
    · intro _
      rw [convert_list_eq, convert_list_eq, convert_loop_append, convert_loop_append, hnone]
      rfl
  · simp only [if_true] at hst
    constructor
    · intro htag
      have hnone : convert_element s el = none := by
        cases el with
        | long n =>
          have hn : fitsLongLong n = false := by simpa [failing_element] using hel
          apply convert_element_long_fails s n hn
          rcases htag with h | h
          · left; rw [hst, h]
          · right
            rw [hst]
            simpa [element_tag] using h
        | unicode cps =>
          have hc : ascii_text cps = false := by simpa [failing_element] using hel
          apply convert_element_unicode_fails s cps hc
          rcases htag with h | h
          · left; rw [hst, h]
          · right
            rw [hst]
            simpa [element_tag] using h
        | _ => simp [failing_element] at hel
      rw [convert_list_eq, convert_loop_append, hs]
      simp [convert_loop, hnone]
    · rintro ⟨hset, hne⟩
      have hskip : convert_element s el = some s :=
        convert_element_skips_other_tag s el (tag_fixed_by pre) hel hst
          (tag_fixed_by_values pre hset) hne
      rw [convert_list_eq, convert_list_eq, convert_loop_append, convert_loop_append, hs]
      simp [convert_loop, hskip]

/-- Witness: `[1, 2^63]` and `[True, 2^63]` fail; `[1.5, 2^63, 2.5]` converts as `[1.5, 2.5]`,
and the list of `True` and a text that is not ASCII converts as `[True]`. -/
theorem convert_list_failing_element_amended_witness :
    failing_element (.long (2 ^ 63)) = true ∧
    convert (.list ([.long 1] ++ .long (2 ^ 63) :: [])) .NONE = (false, .NONE) ∧
    convert (.list ([.bool true] ++ .long (2 ^ 63) :: [])) .NONE = (false, .NONE) ∧
    convert (.list ([.float ⟨3⟩] ++ .long (2 ^ 63) :: [.float ⟨4⟩])) .NONE =
      convert (.list ([.float ⟨3⟩] ++ [.float ⟨4⟩])) .NONE ∧
    convert (.list ([.bool true] ++ .unicode [0xE9] :: [])) .NONE =
      convert (.list ([.bool true] ++ [])) .NONE :=
  ⟨by decide,
    (convert_list_failing_element_amended [.long 1] [] (.long (2 ^ 63)) .NONE
      (by decide)).1 (Or.inr rfl),
    (convert_list_failing_element_amended [.bool true] [] (.long (2 ^ 63)) .NONE
      (by decide)).1 (Or.inr rfl),
    (convert_list_failing_element_amended [.float ⟨3⟩] [.float ⟨4⟩] (.long (2 ^ 63)) .NONE
      (by decide)).2 ⟨by decide, by decide⟩,
    (convert_list_failing_element_amended [.bool true] [] (.unicode [0xE9]) .NONE
      (by decide)).2 ⟨by decide, by decide⟩⟩

end PyDevice
